import Mathlib

/-!
Shallow embedding of the deltaS seller data plane (Python sources under
`src/`), covering the watermarker (`src/seller/watermarking.py`), the
watermark verifier (`src/seller/fingerprinting.py`), the Delta-Sharing
query path (`src/delta_sharing/server.py`), the token guard
(`src/utils/delta_sharing_utils.py`, `src/utils/token_utils.py`) and the
predicate parser (`src/utils/predicate_parser.py`).

External primitives that the Python code calls out to (the SHA-256 /
HMAC-SHA-256 digests of `hashlib` / `hmac`, `pandas.to_datetime` string
parsing, Python's `int()` / `float()` literal parsers and the `%.10f` /
`strftime` renderers) are modelled as parameters bundled in an `Ext`
record: every theorem quantifies over them, and concrete instances used
by witnesses and counterexamples record the genuine digest values
computed with the real algorithms.

Numbers: Python ints are `Int`/`Nat`; `pandas` timestamps are the signed
count of microseconds since the epoch; match rates computed with float
division are modelled exactly in `ℚ`.
-/

namespace DeltaS

deriving instance DecidableEq for Except

/-! ### Python string primitives (ASCII fragment)

The repository only manipulates ASCII in the places the claims touch;
`upper`, `strip` and substring search are modelled on the char list. -/

/-- Whitespace as Python's `str.strip` / regex `\s` sees it (ASCII part). -/
def pyIsSpace (c : Char) : Bool :=
  c = ' ' || c = '\t' || c = '\n' || c = '\r' || c = '\x0b' || c = '\x0c'

/-- Python `str.upper`, ASCII fragment. -/
def pyUpperChar (c : Char) : Char :=
  if 'a' ≤ c ∧ c ≤ 'z' then Char.ofNat (c.toNat - 32) else c

/-- Python `str.upper` on a whole string (ASCII fragment). -/
def pyUpper (s : String) : String := String.mk (s.data.map pyUpperChar)

/-- Python `str.strip()` with no argument: trim whitespace at both ends. -/
def pyStrip (s : String) : String :=
  String.mk (((s.data.dropWhile pyIsSpace).reverse.dropWhile pyIsSpace).reverse)

/-- `s[:n]` on code points. -/
def strTake (s : String) (n : Nat) : String := String.mk (s.data.take n)

/-- `s[n:]` on code points. -/
def strDrop (s : String) (n : Nat) : String := String.mk (s.data.drop n)

/-- Python `s.startswith(p)` on code points. -/
def pyStartsWith (s p : String) : Bool := p.data.isPrefixOf s.data

/-- Loop of `str.replace`: replace non-overlapping occurrences of
`o :: os` left to right.  The fuel argument (at least the input length
at the call site) keeps the recursion structural; every step consumes
at least one character. -/
def pyReplaceGo (o : Char) (os : List Char) (new : List Char) :
    Nat → List Char → List Char
  | _, [] => []
  | 0, l => l
  | fuel + 1, c :: rest =>
      if (o :: os).isPrefixOf (c :: rest) then
        new ++ pyReplaceGo o os new fuel (rest.drop os.length)
      else c :: pyReplaceGo o os new fuel rest

/-- Python `s.replace(old, new)` (an empty pattern does not occur at the
call sites; it returns `s` unchanged here). -/
def pyReplace (s old new : String) : String :=
  match old.data with
  | [] => s
  | o :: os => String.mk (pyReplaceGo o os new.data s.data.length s.data)

/-- Code-point lexicographic order, as Python compares strings. -/
def charListLe : List Char → List Char → Bool
  | [], _ => true
  | _ :: _, [] => false
  | a :: as, b :: bs =>
      if a.toNat < b.toNat then true
      else if b.toNat < a.toNat then false
      else charListLe as bs

/-- Python `needle in hay` returning the first match index (`str.index`);
`none` when the needle does not occur. -/
def findSubIdx : List Char → List Char → Option Nat
  | [], needle => if needle.isEmpty then some 0 else none
  | c :: rest, needle =>
      if needle.isPrefixOf (c :: rest) then some 0
      else (findSubIdx rest needle).map (· + 1)

/-- `value_str.startswith(q) and value_str.endswith(q)` for one-char `q`. -/
def quotedBy (s : String) (q : Char) : Bool :=
  s.data.head? = some q && s.data.getLast? = some q

/-- `value_str[1:-1]`. -/
def stripEnds (s : String) : String := String.mk (s.data.drop 1 |>.dropLast)

/-! ### Hex parsing (Python `int(s, 16)` on well-formed hex strings) -/

/-- Value of one hex digit; non-hex characters give 0 (Python would raise,
but every call site feeds hexdigest output). -/
def hexDigitVal (c : Char) : Nat :=
  if '0' ≤ c ∧ c ≤ '9' then c.toNat - '0'.toNat
  else if 'a' ≤ c ∧ c ≤ 'f' then c.toNat - 'a'.toNat + 10
  else if 'A' ≤ c ∧ c ≤ 'F' then c.toNat - 'A'.toNat + 10
  else 0

/-- `int(s, 16)`. -/
def hexToNat (s : String) : Nat :=
  s.data.foldl (fun a c => a * 16 + hexDigitVal c) 0

/-- Split a char list in chunks of two (a trailing odd char stays alone),
mirroring `[w[i:i+2] for i in range(0, n, 2)]`. -/
def chunkPairs : List Char → List (List Char)
  | [] => []
  | [c] => [[c]]
  | c1 :: c2 :: rest => [c1, c2] :: chunkPairs rest

/-! ### Values, dtypes and dataframes -/

/-- Logical column types of the pandas frames the data plane builds
(`datetime64` is `dDatetime`; `object`/`string` columns are `dString`). -/
inductive Dtype
  | dInt
  | dFloat
  | dBool
  | dDatetime
  | dString
  deriving DecidableEq, Repr

/-- A cell value.  `vTs` is a pandas timestamp as microseconds since the
epoch; `vNull` stands for `NaN`/`NaT`/`None` (everything `pd.isna` flags). -/
inductive Val
  | vInt (i : Int)
  | vFloat (q : ℚ)
  | vBool (b : Bool)
  | vTs (us : Int)
  | vStr (s : String)
  | vNull
  deriving DecidableEq, Repr

/-- `pd.isna`. -/
def pdIsNa : Val → Bool
  | .vNull => true
  | _ => false

/-- A dataframe column: name, dtype, cells top to bottom. -/
structure Col where
  name : String
  dtype : Dtype
  vals : List Val
  deriving DecidableEq, Repr

/-- A pandas dataframe, column-major. -/
structure DF where
  cols : List Col
  deriving DecidableEq, Repr

def DF.names (df : DF) : List String := df.cols.map Col.name

def DF.nRows (df : DF) : Nat :=
  match df.cols with
  | [] => 0
  | c :: _ => c.vals.length

/-- `df.empty` (true when either axis has length zero). -/
def DF.isEmpty (df : DF) : Bool := df.cols.isEmpty || df.nRows == 0

/-- Well-formedness: all columns have the row count of the frame and
column names are unique (pandas column index of the query path). -/
def DF.WF (df : DF) : Prop :=
  (∀ c ∈ df.cols, c.vals.length = df.nRows) ∧ df.names.Nodup

/-- `df.drop(columns=[n])` (used with `_watermark_id`). -/
def DF.dropCol (df : DF) (n : String) : DF :=
  ⟨df.cols.filter (fun c => c.name ≠ n)⟩

/-- `df.dtypes` as an association list. -/
def DF.dtypesList (df : DF) : List (String × Dtype) :=
  df.cols.map (fun c => (c.name, c.dtype))

/-- Row `i` as the association list a `df.apply(..., axis=1)` row carries. -/
def DF.rowAt (df : DF) (i : Nat) : List (String × Val) :=
  df.cols.map (fun c => (c.name, c.vals.getD i .vNull))

/-- `df[n]` by name (first match; names are unique under `WF`). -/
def DF.getCol (df : DF) (n : String) : Option Col :=
  df.cols.find? (fun c => c.name = n)

/-- `df[n] = col`: replace in place when the name exists, else append. -/
def DF.setCol (df : DF) (c : Col) : DF :=
  if df.names.contains c.name then
    ⟨df.cols.map (fun c0 => if c0.name = c.name then c else c0)⟩
  else ⟨df.cols ++ [c]⟩

/-- `df[ns]` column projection in the order of `ns` (missing names are
skipped; the server filters them out beforehand). -/
def DF.select (df : DF) (ns : List String) : DF :=
  ⟨ns.filterMap (fun n => df.getCol n)⟩

/-! ### External primitives -/

/-- The primitives the Python code takes from `hashlib`, `pandas` and the
Python runtime, abstracted.  `sha16 s` is `int(sha256(s).hexdigest()[:16],
16)`, `sha8 s` is `int(sha256(s).hexdigest()[:8], 16)`; `renderFloat` is
the `f"{v:.10f}"` formatter and `renderTs` the
`strftime('%Y-%m-%dT%H:%M:%S.%f')` formatter used for anchor
normalisation; `parsesAsDatetime` tells whether `pd.to_datetime` accepts a
sample string and `toDatetime` is the element conversion it performs;
`pyInt`/`pyFloat` are the `int()`/`float()` literal parsers (`none` models
`ValueError`). -/
structure Ext where
  sha16 : String → Nat
  sha8 : String → Nat
  renderFloat : ℚ → String
  renderTs : Int → String
  parsesAsDatetime : String → Bool
  toDatetime : Val → Val
  pyInt : String → Option Int
  pyFloat : String → Option ℚ

/-- Python `str(value)` for the fallback branch of the normaliser. -/
def pyStr (E : Ext) : Val → String
  | .vInt i => toString i
  | .vFloat q => E.renderFloat q
  | .vBool b => if b then "True" else "False"
  | .vTs us => E.renderTs us
  | .vStr s => s
  | .vNull => "None"

/-! ### Row anchors — `watermarking.py` lines 53–94 -/

/-- `normalize_value_for_anchor(value, dtype)`. -/
def normalizeValueForAnchor (E : Ext) (v : Val) (dt : Dtype) : String :=
  if pdIsNa v then "NULL"
  else
    match dt with
    | .dInt =>
        match v with
        | .vInt i => toString i
        | w => pyStr E w
    | .dFloat =>
        match v with
        | .vFloat q => E.renderFloat q
        | w => pyStr E w
    | .dDatetime =>
        match v with
        | .vTs us => E.renderTs us
        | w => pyStr E w
    | .dBool =>
        match v with
        | .vBool b => if b then "TRUE" else "FALSE"
        | w => pyStr E w
    | .dString => pyStr E v

/-- `type(value)` as the dtype fallback taken when `df_dtypes` is absent
(the verifier's call path). -/
def dtypeOfVal : Val → Dtype
  | .vInt _ => .dInt
  | .vFloat _ => .dFloat
  | .vBool _ => .dBool
  | .vTs _ => .dDatetime
  | .vStr _ => .dString
  | .vNull => .dString

/-- Insertion of one string into a sorted list (code-point order, the
order Python `sorted` uses on ASCII column names). -/
def insertSorted (s : String) : List String → List String
  | [] => [s]
  | t :: ts =>
      if charListLe s.data t.data then s :: t :: ts else t :: insertSorted s ts

/-- Python `sorted` on strings. -/
def sortStrings : List String → List String
  | [] => []
  | s :: ss => insertSorted s (sortStrings ss)

/-- `compute_row_anchor(row, df_dtypes, anchor_columns)`: drop
`_watermark_id`, check the anchor columns are all present (a missing one
raises, modelled as `none`), sort them, normalise each value under the
column dtype (falling back to the value's own type when `df_dtypes` is
absent), join `col:normalised` with `|` and hash.  The result is
`int(sha256(row_str).hexdigest()[:16], 16)`. -/
def computeRowAnchor (E : Ext) (row : List (String × Val))
    (dfDtypes : Option (List (String × Dtype)))
    (anchorColumns : Option (List String)) : Option Nat :=
  let rowFiltered := row.filter (fun p => p.1 ≠ "_watermark_id")
  let names := rowFiltered.map Prod.fst
  let colsToUse? : Option (List String) :=
    match anchorColumns with
    | some acs =>
        let available := acs.filter (fun c => names.contains c)
        if available.length = acs.length then some (sortStrings available)
        else none
    | none => some (sortStrings names)
  match colsToUse? with
  | none => none
  | some colsToUse =>
      let part := fun (c : String) =>
        let v := (rowFiltered.lookup c).getD .vNull
        let dt :=
          match dfDtypes with
          | some ds =>
              match ds.lookup c with
              | some d => d
              | none => dtypeOfVal v
          | none => dtypeOfVal v
        c ++ ":" ++ normalizeValueForAnchor E v dt
      some (E.sha16 (String.intercalate "|" (colsToUse.map part)))

/-! ### Watermark embedding — `watermarking.py` lines 211–272 -/

/-- `watermark_seed = int(watermark[:8], 16)`. -/
def watermarkSeed (w : String) : Nat := hexToNat (strTake w 8)

/-- `watermark_bytes = [int(watermark[i:i+2], 16) for i in
range(0, min(16, len(watermark)), 2)]`. -/
def watermarkBytes (w : String) : List Nat :=
  (chunkPairs (strTake w 16).data).map (fun p => hexToNat (String.mk p))

/-- `ts.dt.floor('S')` on epoch microseconds. -/
def floorToSecondUs (us : Int) : Int := us.ediv 1000000 * 1000000

/-- `target_microseconds = (watermark_byte * 1000 + seed % 1000) %
1000000` with `watermark_byte = watermark_bytes[anchor % len(...)]`
(`watermarking.py` lines 263–266). -/
def targetMicroseconds (wbytes : List Nat) (seed : Nat) (anchor : Nat) : Nat :=
  (wbytes.getD (anchor % wbytes.length) 0 * 1000 + seed % 1000) % 1000000

/-- One timestamp cell after the embed: non-null cells become
`floor_to_second + target_μs`; null cells are outside the `notna` mask
and stay. -/
def watermarkTsVal (wbytes : List Nat) (seed : Nat) (anchor : Nat) :
    Val → Val
  | .vTs us =>
      .vTs (floorToSecondUs us + (targetMicroseconds wbytes seed anchor : Int))
  | v => v

/-- Sequence a list of options. -/
def allSome {α : Type} : List (Option α) → Option (List α)
  | [] => some []
  | none :: _ => none
  | some a :: rest => (allSome rest).map (a :: ·)

/-- Anchors of every row of `df` (the
`df_for_anchor.apply(compute_row_anchor, axis=1)` vector). -/
def computeRowAnchors (E : Ext) (df : DF)
    (anchorCols : Option (List String)) : Option (List Nat) :=
  allSome ((List.range df.nRows).map
    (fun i => computeRowAnchor E (df.rowAt i) (some df.dtypesList) anchorCols))

/-- Timestamp column detection (`watermarking.py` lines 223–240):
`datetime64` dtype, or a string/object column whose first non-null value
is a truthy string that looks like a date (`'T' in v` or `'-' in v[:10]
and len(v) > 10`) and which `pd.to_datetime` accepts. -/
def isTimestampCol (E : Ext) (c : Col) : Bool :=
  if c.name = "_watermark_id" then false
  else
    match c.dtype with
    | .dDatetime => true
    | .dString =>
        match c.vals.find? (fun v => !pdIsNa v) with
        | some (.vStr s) =>
            s ≠ "" &&
            ((s.data.contains 'T' ||
              ((strTake s 10).data.contains '-' && s.data.length > 10)) &&
             E.parsesAsDatetime s)
        | _ => false
    | _ => false

/-- `pd.to_datetime(df[col])` for a detected string timestamp column. -/
def stringToDatetimeCol (E : Ext) (c : Col) : Col :=
  ⟨c.name, .dDatetime, c.vals.map E.toDatetime⟩

/-- The mutation `watermarking.py` lines 248–270 perform on one column:
detected timestamp columns are converted (strings) and every cell is
re-based on the row's anchor; all other columns pass through. -/
def watermarkMutateCol (E : Ext) (tsColNames : List String)
    (wbytes : List Nat) (seed : Nat) (anchors : List Nat) (c : Col) : Col :=
  if tsColNames.contains c.name then
    let c' := if c.dtype = .dDatetime then c else stringToDatetimeCol E c
    ⟨c'.name, c'.dtype, List.zipWith (watermarkTsVal wbytes seed) anchors c'.vals⟩
  else c

/-- `apply_watermark_to_dataframe(df, watermark, is_trial,
anchor_columns)`.  Empty frames return unchanged; row anchors are
computed on the frame without `_watermark_id` before any mutation; trial
shares gain the `_watermark_id` column holding `anchor % 1_000_000`;
every detected timestamp column (string ones converted first) has each
non-null cell floored to the second plus the target microseconds.  A
missing anchor column raises inside the row-anchor step, modelled as
`none`. -/
def applyWatermarkToDataframe (E : Ext) (df : DF) (watermark : String)
    (isTrial : Bool) (anchorCols : Option (List String)) : Option DF :=
  if df.isEmpty then some df
  else
    let seed := watermarkSeed watermark
    let wbytes := watermarkBytes watermark
    let dfForAnchor := df.dropCol "_watermark_id"
    match computeRowAnchors E dfForAnchor anchorCols with
    | none => none
    | some anchors =>
        let tsColNames := (df.cols.filter (isTimestampCol E)).map Col.name
        let df1 :=
          if isTrial then
            df.setCol ⟨"_watermark_id", .dInt,
              anchors.map (fun a => .vInt ((a % 1000000 : Nat) : Int))⟩
          else df
        if tsColNames.isEmpty && !isTrial then some df1
        else
          some ⟨df1.cols.map (watermarkMutateCol E tsColNames wbytes seed anchors)⟩

/-! ### Watermark verification — `fingerprinting.py` lines 144–237 -/

/-- The part of `generate_buyer_fingerprint` the verifier consumes:
`base_hash = HMAC_SHA256(secret, f"{buyer_id}:{share_id}").hexdigest()[:32]`. -/
structure Fingerprint where
  baseHash : String
  deriving DecidableEq, Repr

/-- One verification channel: `found`, `matches`, `checked`,
`match_rate`. -/
structure ChannelResult where
  found : Bool
  matchCount : Nat
  checked : Nat
  matchRate : ℚ
  deriving DecidableEq, Repr

/-- The dict `verify_fingerprint` returns, restricted to the fields the
claims are about (`timestamp` and `watermark_column` sub-dicts are
`none` when the channel was not scored). -/
structure VerifyResult where
  found : Bool
  tsChannel : Option ChannelResult
  wmChannel : Option ChannelResult
  overallMatchRate : ℚ
  deriving DecidableEq, Repr

/-- The exact value of `(a + b) / 2`, written through `mkRat` so that
concrete instances evaluate inside the kernel (`ratMean2_eq` below
identifies it with the textbook mean). -/
def ratMean2 (a b : ℚ) : ℚ :=
  mkRat (a.num * (b.den : Int) + b.num * (a.den : Int)) (2 * a.den * b.den)

/-- `watermark_bytes = [int(base_hash[i:i+2], 16) for i in range(0,
min(8, len(base_hash)), 2)]` (four bytes). -/
def fingerprintBytes (bh : String) : List Nat :=
  (chunkPairs (strTake bh 8).data).map (fun p => hexToNat (String.mk p))

/-- `expected_microseconds = (watermark_byte * 12500 + combined_seed %
10000) % 1000000` with `combined_seed = (int(base_hash[:8], 16) +
row_anchor) % 2**32` (`fingerprinting.py` lines 174–179). -/
def expectedMicroseconds (fp : Fingerprint) (anchor : Nat) : Nat :=
  let baseHashInt := hexToNat (strTake fp.baseHash 8)
  let combinedSeed := (baseHashInt + anchor) % 2 ^ 32
  let wbytes := fingerprintBytes fp.baseHash
  (wbytes.getD (anchor % wbytes.length) 0 * 12500 + combinedSeed % 10000) %
    1000000

/-- Tolerance window on one timestamp cell: `diff < 1000 or
abs(diff - 1000000) < 1000` where `diff = abs(actual - expected)` and
`actual` is the cell's microsecond component. -/
def tsCellMatch (v : Val) (expected : Nat) : Bool :=
  match v with
  | .vTs us =>
      let actual : Int := us.emod 1000000
      let diff := (actual - (expected : Int)).natAbs
      diff < 1000 || ((diff : Int) - 1000000).natAbs < 1000
  | _ => false

/-- `row['_watermark_id'] == expected_watermark_id` (non-integer cells
never compare equal). -/
def wmCellMatch (v : Val) (expected : Nat) : Bool :=
  match v with
  | .vInt i => i = (expected : Int)
  | _ => false

/-- Per-row anchor the verifier uses (`compute_row_anchor(row,
anchor_columns=available)`, `fingerprinting.py` line 172/203; the
available columns always being present, the missing-column error branch
is unreachable and defaulted). -/
def verifyAnchorAt (E : Ext) (df : DF) (available : List String)
    (i : Nat) : Nat :=
  (computeRowAnchor E (df.rowAt i) none (some available)).getD 0

/-- The timestamp channel (`fingerprinting.py` lines 166–195): `none`
when no `datetime64` column exists, else every row is checked and a row
matches when some timestamp column's non-null cell is within tolerance
of the expected microseconds; found when the rate clears `tolerance`. -/
def tsChannelResult (E : Ext) (df : DF) (fp : Fingerprint)
    (available : List String) (tolerance : ℚ) : Option ChannelResult :=
  let tsCols := df.cols.filter (fun c => c.dtype = .dDatetime)
  if tsCols.isEmpty then none
  else
    let checked := df.nRows
    let matchCount := ((List.range df.nRows).filter (fun i =>
      tsCols.any (fun c =>
        tsCellMatch (c.vals.getD i .vNull)
          (expectedMicroseconds fp (verifyAnchorAt E df available i))))).length
    let rate : ℚ := if checked > 0 then mkRat matchCount checked else 0
    some ⟨decide (rate ≥ tolerance), matchCount, checked, rate⟩

/-- The `_watermark_id` channel (`fingerprinting.py` lines 197–218):
scored when the column is present; a row matches when the cell equals
`int(sha256(base_hash:anchor).hexdigest()[:8], 16)`; found when the
rate is at least 0.5. -/
def wmChannelResult (E : Ext) (df : DF) (fp : Fingerprint)
    (available : List String) : Option ChannelResult :=
  if df.names.contains "_watermark_id" then
    let wvals := ((df.getCol "_watermark_id").getD ⟨"", .dInt, []⟩).vals
    let checked := df.nRows
    let matchCount := ((List.range df.nRows).filter (fun i =>
      wmCellMatch (wvals.getD i .vNull)
        (E.sha8 (fp.baseHash ++ ":" ++
          toString (verifyAnchorAt E df available i))))).length
    let rate : ℚ := if checked > 0 then mkRat matchCount checked else 0
    some ⟨decide (rate ≥ mkRat 1 2), matchCount, checked, rate⟩
  else none

/-- `overall_match_rate`: the mean of the scored channels' rates
(`fingerprinting.py` lines 220–232). -/
def overallOf : Option ChannelResult → Option ChannelResult → ℚ
  | some ch1, some ch2 => ratMean2 ch1.matchRate ch2.matchRate
  | some ch1, none => ch1.matchRate
  | none, some ch2 => ch2.matchRate
  | none, none => 0

/-- `verify_fingerprint(df, fingerprint, anchor_columns, tolerance)`:
empty frame or no available anchor column short-circuits to not-found;
else both channels are scored and `found` is
`overall_match_rate >= tolerance`. -/
def verifyFingerprint (E : Ext) (df : DF) (fp : Fingerprint)
    (anchorColumns : List String) (tolerance : ℚ) : VerifyResult :=
  if df.isEmpty then ⟨false, none, none, 0⟩
  else
    let available := anchorColumns.filter (fun c => df.names.contains c)
    if available.isEmpty then ⟨false, none, none, 0⟩
    else
      let tsChannel := tsChannelResult E df fp available tolerance
      let wmChannel := wmChannelResult E df fp available
      let overall := overallOf tsChannel wmChannel
      ⟨decide (overall ≥ tolerance), tsChannel, wmChannel, overall⟩

/-! ### Query path — `server.py` `query_table` -/

/-- Python truthiness of a nullable integer (`None` and `0` are falsy). -/
def pyTruthyInt : Option Int → Bool
  | none => false
  | some n => n != 0

/-- `server.py` lines 200–207: the effective row limit.  A trial share
with a truthy `trial_row_limit` caps a truthy requested limit at
`min(requested, trial_row_limit)` and otherwise uses the trial cap; a
non-trial share uses the truthy requested limit; otherwise no limit. -/
def effectiveLimit (isTrial : Bool) (trialRowLimit requestedLimit : Option Int) :
    Option Int :=
  if isTrial && pyTruthyInt trialRowLimit then
    if pyTruthyInt requestedLimit then
      some (min (requestedLimit.getD 0) (trialRowLimit.getD 0))
    else trialRowLimit
  else if pyTruthyInt requestedLimit then requestedLimit
  else none

/-- `server.py` lines 286–300: the batch collection loop.  `scanned` is
`rows_scanned`; a truthy limit breaks once reached and slices the batch
that crosses it (the loop's bottom break coincides with the next
iteration's top break). -/
def collectBatchesGo {ρ : Type} (eff : Option Int) :
    Int → List (List ρ) → List (List ρ)
  | _, [] => []
  | scanned, b :: bs =>
      match eff with
      | none => b :: collectBatchesGo none (scanned + b.length) bs
      | some n =>
          if n ≠ 0 ∧ scanned ≥ n then []
          else
            let b' := if n ≠ 0 ∧ (n - scanned) < (b.length : Int) then
                        b.take (n - scanned).toNat
                      else b
            b' :: collectBatchesGo (some n) (scanned + b'.length) bs

/-- The record batches kept by the scan loop. -/
def collectBatches {ρ : Type} (eff : Option Int) (batches : List (List ρ)) :
    List (List ρ) :=
  collectBatchesGo eff 0 batches

/-- `server.py` lines 322–338: column projection of the watermarked
frame.  `requested` is the parsed `columns` body field (`none` when
absent/falsy); duplicates collapse as in `set(...)` (Python set order is
arbitrary, so only membership is meaningful).  The two removal loops are
kept although they never fire (`columns_to_return` starts as the
requested set).  No surviving requested column yields the 400. -/
def projectResult (wdf : DF) (requested : Option (List String))
    (anchorCols : List String) (isTrial : Bool) : Except (Nat × String) DF :=
  match requested with
  | none => .ok wdf
  | some req =>
      let reqSet := req.eraseDups
      if reqSet.isEmpty then .ok wdf
      else
        let ctr1 := reqSet.filter
          (fun c => !(anchorCols.contains c && !reqSet.contains c))
        let ctr2 :=
          if wdf.names.contains "_watermark_id" && isTrial then
            ctr1.filter (fun c => !(c = "_watermark_id" && !reqSet.contains c))
          else ctr1
        if ctr2.isEmpty then .ok wdf
        else
          let availableCols := ctr2.filter (fun c => wdf.names.contains c)
          if availableCols.isEmpty then
            .error (400, "None of the requested columns are available in the result")
          else .ok (wdf.select availableCols)

/-- One line of the `application/x-ndjson` response body. -/
inductive NdLine
  | protocolLine
  | metaDataLine (schemaString : String)
  | fileLine (key : String) (version : Int)
  deriving DecidableEq, Repr

/-- `server.py` lines 426–473: the protocol line, the metadata line, then
one `file` action per entry of `files_list`. -/
def responseLines (schemaString : String) (filesList : List String)
    (version : Int) : List NdLine :=
  [.protocolLine, .metaDataLine schemaString] ++
    filesList.map (fun k => .fileLine k version)

/-- What `query_table` hands back for a served query. -/
structure QueryOutcome where
  servedDf : DF
  lines : List NdLine
  rowsReturned : Nat
  deriving DecidableEq, Repr

/-- `server.py` lines 302–475 after the scan: the collected rows as a
frame (`scanned`) are watermarked, projected, materialised under the
single fresh `tempKey` (`files_list` is always the one-element list,
lines 343 and 376) and emitted.  A watermarking exception surfaces as
the generic 500 of lines 530–532. -/
def runQueryServe (E : Ext) (scanned : DF) (watermark : String)
    (isTrial : Bool) (anchorCols : List String)
    (requested : Option (List String)) (tempKey schemaString : String)
    (version : Int) : Except (Nat × String) QueryOutcome :=
  if scanned.cols.isEmpty then
    .error (500, "Query returned table with empty schema")
  else
    match applyWatermarkToDataframe E scanned watermark isTrial (some anchorCols) with
    | none => .error (500, "Error querying Delta table")
    | some wdf =>
        match projectResult wdf requested anchorCols isTrial with
        | .error e => .error e
        | .ok served =>
            .ok ⟨served, responseLines schemaString [tempKey] version,
              served.nRows⟩

/-! ### Token guard — `delta_sharing_utils.py`, `token_utils.py` -/

/-- The `shares` row fields the guard reads.  Nullable text columns are
`Option String` (`none` or the empty string are falsy); datetimes are
epoch seconds. -/
structure ShareRec where
  id : Int
  sellerId : Int
  buyerId : Int
  token : Option String
  tokenHash : Option String
  expiresAt : Option Int
  approvalStatus : String
  revoked : Bool
  isTrial : Bool
  trialRowLimit : Option Int
  trialExpiresAt : Option Int
  deriving DecidableEq, Repr

/-- Python truthiness of a nullable string. -/
def pyTruthyStr : Option String → Bool
  | none => false
  | some s => s ≠ ""

/-- Guard failure kinds, one per raise site of
`extract_token_from_header` / `get_share_from_token`. -/
inductive GuardKind
  | missingAuth
  | invalidToken
  | wrongSeller
  | revokedShare
  | expiredShare
  | trialExpired
  | notApproved
  deriving DecidableEq, Repr

/-- `is_token_expired(expires_at)`: `False` on a null timestamp, else
`utcnow() > expires_at`. -/
def isTokenExpired (now : Int) (expiresAt : Option Int) : Bool :=
  match expiresAt with
  | none => false
  | some t => now > t

/-- `extract_token_from_header`: 401 unless the header is a truthy string
beginning `"Bearer "`; the token is the header with every occurrence of
`"Bearer "` removed (`str.replace`). -/
def extractTokenFromHeader (authorization : Option String) :
    Except (Nat × GuardKind) String :=
  match authorization with
  | none => .error (401, .missingAuth)
  | some a =>
      if a = "" ∨ ¬ pyStartsWith a "Bearer " then .error (401, .missingAuth)
      else .ok (pyReplace a "Bearer " "")

/-- The matching loop of `get_share_from_token` (lines 90–99): over the
non-revoked rows, the first share whose truthy clear-text `token` equals
the bearer, or — only failing that — whose truthy `token_hash` passes
`verify_token_hash` (the constant-time HMAC comparison, abstracted as
`verifyHash`). -/
def lookupShare (verifyHash : String → String → Bool) (token : String)
    (shares : List ShareRec) : Option ShareRec :=
  (shares.filter (fun s => !s.revoked)).find? (fun s =>
    (pyTruthyStr s.token && s.token == some token) ||
    (pyTruthyStr s.tokenHash && verifyHash token (s.tokenHash.getD "")))

/-- `get_share_from_token` (lines 89–121): no match is a 401; a pinned
seller mismatch is a 403; revoked / expired / trial-expired are 401s; a
non-approved status is a 403. -/
def getShareFromToken (verifyHash : String → String → Bool)
    (pinnedSeller : Option Int) (now : Int) (token : String)
    (shares : List ShareRec) : Except (Nat × GuardKind) ShareRec :=
  match lookupShare verifyHash token shares with
  | none => .error (401, .invalidToken)
  | some share =>
      if (pinnedSeller.map (fun sid => share.sellerId != sid)).getD false then
        .error (403, .wrongSeller)
      else if share.revoked then .error (401, .revokedShare)
      else if isTokenExpired now share.expiresAt then
        .error (401, .expiredShare)
      else if share.isTrial && isTokenExpired now share.trialExpiresAt then
        .error (401, .trialExpired)
      else if share.approvalStatus ≠ "approved" then
        .error (403, .notApproved)
      else .ok share

/-- The data-plane authentication pipeline every endpoint runs:
`extract_token_from_header` then `get_share_from_token`. -/
def authenticate (verifyHash : String → String → Bool)
    (pinnedSeller : Option Int) (now : Int) (authorization : Option String)
    (shares : List ShareRec) : Except (Nat × GuardKind) ShareRec :=
  match extractTokenFromHeader authorization with
  | .error e => .error e
  | .ok tok => getShareFromToken verifyHash pinnedSeller now tok shares

/-! ### Predicate parsing — `predicate_parser.py` -/

/-- A parsed literal as `parse_value` produces it: quoted strings lose
their quotes, `TRUE`/`FALSE`/`NULL` (case-insensitive) become
bool/null, strings with a dot try `float()`, others try `int()`, and a
`ValueError` falls back to the raw string. -/
inductive PVal
  | pstr (s : String)
  | pint (i : Int)
  | pfloat (q : ℚ)
  | pbool (b : Bool)
  | pnull
  deriving DecidableEq, Repr

/-- `PredicateNode(op, column, value, values)`. -/
structure PredicateNode where
  op : String
  column : String
  value : Option PVal
  values : Option (List PVal)
  deriving DecidableEq, Repr

/-- `parse_value(value_str)` (lines 50–70).  Total: malformed numeric
literals fall back to the raw string, they never raise. -/
def parseValue (E : Ext) (s0 : String) : PVal :=
  let s := pyStrip s0
  if quotedBy s '\'' then .pstr (stripEnds s)
  else if quotedBy s '"' then .pstr (stripEnds s)
  else if pyUpper s = "TRUE" then .pbool true
  else if pyUpper s = "FALSE" then .pbool false
  else if pyUpper s = "NULL" then .pnull
  else if s.data.contains '.' then
    match E.pyFloat s with
    | some q => .pfloat q
    | none => .pstr s
  else
    match E.pyInt s with
    | some i => .pint i
    | none => .pstr s

/-- The character scanner of `parse_in_list` (lines 72–97): `current`
accumulates, quotes toggle `in_quotes` (closing only on the opening
quote character), commas outside quotes emit `parse_value` of the
stripped chunk when non-empty. -/
def parseInListGo (E : Ext) :
    List Char → List Char → Bool → Option Char → List PVal
  | [], current, _, _ =>
      if pyStrip (String.mk current) ≠ "" then
        [parseValue E (pyStrip (String.mk current))]
      else []
  | ch :: rest, current, inQ, qc =>
      if (ch = '\'' ∨ ch = '"') ∧ (¬ inQ ∨ some ch = qc) then
        if ¬ inQ then parseInListGo E rest (current ++ [ch]) true (some ch)
        else parseInListGo E rest (current ++ [ch]) false none
      else if ch = ',' ∧ ¬ inQ then
        (if pyStrip (String.mk current) ≠ "" then
          [parseValue E (pyStrip (String.mk current))]
         else []) ++ parseInListGo E rest [] inQ qc
      else parseInListGo E rest (current ++ [ch]) inQ qc

/-- `parse_in_list(values_str)`. -/
def parseInList (E : Ext) (s : String) : List PVal :=
  parseInListGo E s.data [] false none

/-- The comparison-operator scan of `parse_predicate_string` (lines
31–38): the first operator of the fixed order whose padded form
`" op "` occurs splits the string once at its first occurrence. -/
def findCompOpGo (s : List Char) : List String → Option (String × String × String)
  | [] => none
  | op :: ops =>
      let pat := (" " ++ op ++ " ").data
      match findSubIdx s pat with
      | some idx =>
          some (op, String.mk (s.take idx), String.mk (s.drop (idx + pat.length)))
      | none => findCompOpGo s ops

/-- `["!=", ">=", "<=", "=", ">", "<"]` in scan order. -/
def compOps : List String := ["!=", ">=", "<=", "=", ">", "<"]

/-- `\s+IN\s+\(` matched at the current position (case-insensitive
`IN`); returns the characters after the opening parenthesis.  The two
`\s+` are committed greedily, which is equivalent here because `I` and
`(` are not whitespace. -/
def afterInOpen (cs : List Char) : Option (List Char) :=
  let sp1 := cs.takeWhile pyIsSpace
  let rest1 := cs.dropWhile pyIsSpace
  if sp1.isEmpty then none
  else
    match rest1 with
    | c1 :: c2 :: rest2 =>
        if (c1 = 'I' ∨ c1 = 'i') ∧ (c2 = 'N' ∨ c2 = 'n') then
          let sp2 := rest2.takeWhile pyIsSpace
          let rest3 := rest2.dropWhile pyIsSpace
          if sp2.isEmpty then none
          else
            match rest3 with
            | '(' :: rest4 => some rest4
            | _ => none
        else none
    | _ => none

/-- `re.match(r'^(.+?)\s+IN\s+\((.+)\)$', s, re.IGNORECASE)`: the lazy
first group grows until `\s+IN\s+\(` matches with the remainder being a
non-empty second group closed by the final `)` (the greedy `(.+)\)$`
puts the last character in the `\)`).  `.` is modelled as any character
(predicates with embedded newlines are out of scope). -/
def regexInSplitGo : List Char → List Char → Option (List Char × List Char)
  | _, [] => none
  | acc, c :: rest =>
      let acc' := acc ++ [c]
      match afterInOpen rest with
      | some after =>
          if after.length ≥ 2 ∧ after.getLast? = some ')' then
            some (acc', after.dropLast)
          else regexInSplitGo acc' rest
      | none => regexInSplitGo acc' rest

/-- `parse_predicate_string(predicate_str)` (lines 20–48): strip, then in
order: `IS NOT NULL` / `IS NULL` by case-insensitive substring,
comparison operators, the `IN (...)` regex, else the 400
"Unsupported predicate format". -/
def parsePredicateString (E : Ext) (s0 : String) :
    Except (Nat × String) PredicateNode :=
  let s := pyStrip s0
  let up := (pyUpper s).data
  match findSubIdx up " IS NOT NULL".data with
  | some idx => .ok ⟨"IS NOT NULL", pyStrip (strTake s idx), none, none⟩
  | none =>
  match findSubIdx up " IS NULL".data with
  | some idx => .ok ⟨"IS NULL", pyStrip (strTake s idx), none, none⟩
  | none =>
  match findCompOpGo s.data compOps with
  | some (op, colStr, valStr) =>
      .ok ⟨op, pyStrip colStr, some (parseValue E (pyStrip valStr)), none⟩
  | none =>
  if (findSubIdx up " IN ".data).isSome then
    match regexInSplitGo [] s.data with
    | some (g1, g2) =>
        .ok ⟨"IN", pyStrip (String.mk g1), none,
          some (parseInList E (pyStrip (String.mk g2)))⟩
    | none => .error (400, "Unsupported predicate format")
  else .error (400, "Unsupported predicate format")

/-- `predicateHints` may be one DSL string or a list of them. -/
inductive HintsInput
  | hstr (s : String)
  | hlist (l : List String)
  deriving DecidableEq, Repr

/-- The list a `HintsInput` normalises to. -/
def hintsList : HintsInput → List String
  | .hstr s => [s]
  | .hlist l => l

/-- The parse loop of `parse_predicate_hints`: the first
`HTTPException` aborts. -/
def parseHintsGo (E : Ext) :
    List String → Except (Nat × String) (List PredicateNode)
  | [] => .ok []
  | s :: rest =>
      match parsePredicateString E s with
      | .error e => .error e
      | .ok n =>
          match parseHintsGo E rest with
          | .error e => .error e
          | .ok ns => .ok (n :: ns)

/-- `parse_predicate_hints(predicate_hints)` (lines 99–116). -/
def parsePredicateHints (E : Ext) (h : HintsInput) :
    Except (Nat × String) (List PredicateNode) :=
  let hints := hintsList h
  if hints.length > 20 then .error (400, "Too many predicates")
  else parseHintsGo E hints

/-- One entry of `jsonPredicateHints`, modelled with its recognised
fields (`column`/`col` and `op`/`operator` collapse to one field, the
second being consulted only when the first is falsy exactly as
`get(..) or get(..)` does; a JSON `null` value is `none`, as
`dict.get` cannot tell them apart). -/
structure JsonPredicate where
  column : Option String
  op : Option String
  value : Option PVal
  values : Option (List PVal)
  deriving DecidableEq, Repr

/-- Python truthiness of the `values` array. -/
def pyTruthyVals : Option (List PVal) → Bool
  | none => false
  | some vs => !vs.isEmpty

/-- The per-entry body of `parse_json_predicate_hints` (lines 126–151):
missing column/op are 400s; null ops keep the uppercased op; `IN`
requires a truthy `values` of at most 1000 entries; any other op keeps
its original spelling and requires a non-null `value` (an unknown
operator is deferred to `validate_predicates`). -/
def parseJsonPredicateOne (p : JsonPredicate) :
    Except (Nat × String) PredicateNode :=
  if ¬ pyTruthyStr p.column then .error (400, "Missing column in JSON predicate")
  else if ¬ pyTruthyStr p.op then .error (400, "Missing op in JSON predicate")
  else
    let op := p.op.getD ""
    let column := p.column.getD ""
    let opU := pyUpper op
    if opU = "IS NULL" ∨ opU = "IS NOT NULL" then .ok ⟨opU, column, none, none⟩
    else if opU = "IN" then
      if ¬ pyTruthyVals p.values then
        .error (400, "IN operator requires values array")
      else if (p.values.getD []).length > 1000 then
        .error (400, "IN list too large")
      else .ok ⟨"IN", column, none, p.values⟩
    else
      match p.value with
      | none => .error (400, "Operator requires value")
      | some v => .ok ⟨op, column, some v, none⟩

/-- The entry loop of `parse_json_predicate_hints`. -/
def parseJsonGo : List JsonPredicate → Except (Nat × String) (List PredicateNode)
  | [] => .ok []
  | p :: ps =>
      match parseJsonPredicateOne p with
      | .error e => .error e
      | .ok n =>
          match parseJsonGo ps with
          | .error e => .error e
          | .ok ns => .ok (n :: ns)

/-- `parse_json_predicate_hints(json_predicates)` (lines 118–153). -/
def parseJsonPredicateHints (ps : List JsonPredicate) :
    Except (Nat × String) (List PredicateNode) :=
  if ps.length > 20 then .error (400, "Too many predicates")
  else parseJsonGo ps

/-- `SUPPORTED_COMPARISON_OPS + SUPPORTED_SET_OPS + SUPPORTED_NULL_OPS`. -/
def supportedOps : List String :=
  ["=", "!=", ">", "<", ">=", "<=", "IN", "IS NULL", "IS NOT NULL"]

/-- `validate_predicates(predicates, schema)` (lines 155–166): per
predicate, in order: schema membership, operator support, IN-list
size. -/
def validatePredicates :
    List PredicateNode → List String → Except (Nat × String) Unit
  | [], _ => .ok ()
  | p :: ps, cols =>
      if ¬ cols.contains p.column then
        .error (400, "Column not found in table schema")
      else if ¬ supportedOps.contains p.op then
        .error (400, "Unsupported operator")
      else if p.op = "IN" ∧ (p.values.getD []).length > 1000 then
        .error (400, "IN list too large")
      else validatePredicates ps cols

/-- The request-body fields the parser consumes (`jsonPredicateHints`
wins over `predicateHints` when present). -/
structure QueryBody where
  jsonPredicateHints : Option (List JsonPredicate)
  predicateHints : Option HintsInput
  deriving DecidableEq, Repr

/-- The parse phase of `parse_query_predicates` (before validation). -/
def parseBodyHints (E : Ext) (body : QueryBody) :
    Except (Nat × String) (List PredicateNode) :=
  match body.jsonPredicateHints with
  | some js => parseJsonPredicateHints js
  | none =>
      match body.predicateHints with
      | some h => parsePredicateHints E h
      | none => .ok []

/-- `parse_query_predicates(body, schema)` (lines 209–221): parse, and
when any predicate came out, validate against the schema columns.  The
returned list doubles as the compiled conjunction filter
(`predicates_to_pyarrow_filter` builds the pyarrow `&`-chain from
exactly this list). -/
def parseQueryPredicates (E : Ext) (body : QueryBody)
    (schemaCols : List String) : Except (Nat × String) (List PredicateNode) :=
  match parseBodyHints E body with
  | .error e => .error e
  | .ok preds =>
      if preds.isEmpty then .ok []
      else
        match validatePredicates preds schemaCols with
        | .error e => .error e
        | .ok _ => .ok preds

/-- A parsed node passes `validate_predicates`: schema column, supported
operator, IN list within bounds. -/
def nodeOkB (cols : List String) (p : PredicateNode) : Bool :=
  cols.contains p.column && supportedOps.contains p.op &&
    (p.op != "IN" || (p.values.getD []).length ≤ 1000)

/-- One JSON entry is structurally complete for
`parse_json_predicate_hints`: truthy column and op, and per op shape a
truthy bounded `values` array (IN) or a present `value` (comparisons). -/
def jsonNodeOkB (p : JsonPredicate) : Bool :=
  pyTruthyStr p.column && pyTruthyStr p.op &&
    (let opU := pyUpper (p.op.getD "")
     if opU = "IS NULL" || opU = "IS NOT NULL" then true
     else if opU = "IN" then
       pyTruthyVals p.values && (p.values.getD []).length ≤ 1000
     else p.value.isSome)

/-- The conditions under which `parse_query_predicates` succeeds: at
most 20 hints; every DSL hint in a recognised format (its parse
succeeds — literal malformedness never fails, `parse_value` is total);
every JSON entry structurally complete; and every produced node names a
schema column with a supported operator and a bounded IN list. -/
def queryWellFormedB (E : Ext) (body : QueryBody) (cols : List String) : Bool :=
  match body.jsonPredicateHints with
  | some js =>
      js.length ≤ 20 && js.all jsonNodeOkB &&
        js.all (fun p =>
          match parseJsonPredicateOne p with
          | .ok node => nodeOkB cols node
          | .error _ => true)
  | none =>
      match body.predicateHints with
      | some h =>
          let hints := hintsList h
          hints.length ≤ 20 &&
            hints.all (fun s =>
              match parsePredicateString E s with
              | .ok node => nodeOkB cols node
              | .error _ => false)
      | none => true

/-! ## Lemmas -/

theorem pyTruthyInt_eq_true {o : Option Int} :
    pyTruthyInt o = true ↔ ∃ n, o = some n ∧ n ≠ 0 := by
  cases o <;> simp [pyTruthyInt]

theorem pyTruthyInt_eq_false {o : Option Int} :
    pyTruthyInt o = false ↔ o = none ∨ o = some 0 := by
  cases o with
  | none => simp [pyTruthyInt]
  | some n =>
      simp only [pyTruthyInt, bne_eq_false_iff_eq, Option.some.injEq]
      constructor
      · intro h; right; exact h
      · rintro (h | h)
        · exact absurd h (by simp)
        · exact h

/-- A produced effective limit is never the falsy 0 (so the scan loop's
truthiness checks always see it as active). -/
theorem effectiveLimit_ne_zero {t : Bool} {cap req : Option Int} {n : Int}
    (h : effectiveLimit t cap req = some n) : n ≠ 0 := by
  unfold effectiveLimit at h
  split at h
  · rename_i h1
    rw [Bool.and_eq_true] at h1
    obtain ⟨m, hm, hm0⟩ := pyTruthyInt_eq_true.1 h1.2
    split at h
    · rename_i h2
      obtain ⟨r, hr, hr0⟩ := pyTruthyInt_eq_true.1 h2
      rw [hm, hr] at h
      simp only [Option.getD_some, Option.some.injEq] at h
      rcases le_total r m with hle | hle
      · rw [min_eq_left hle] at h; omega
      · rw [min_eq_right hle] at h; omega
    · rw [hm] at h
      simp only [Option.some.injEq] at h
      omega
  · split at h
    · rename_i h2
      obtain ⟨r, hr, hr0⟩ := pyTruthyInt_eq_true.1 h2
      rw [hr] at h
      simp only [Option.some.injEq] at h
      omega
    · exact absurd h (by simp)

/-- Rows kept by the collection loop from `scanned` onward, against an
active limit `n`. -/
theorem collectBatchesGo_length_le {ρ : Type} (n : Int) (hn : n ≠ 0) :
    ∀ (batches : List (List ρ)) (scanned : Int), scanned ≤ n →
      ((collectBatchesGo (some n) scanned batches).flatten.length : Int) ≤
        n - scanned := by
  intro batches
  induction batches with
  | nil =>
      intro scanned hs
      simp only [collectBatchesGo, List.flatten_nil, List.length_nil]
      omega
  | cons b bs ih =>
      intro scanned hs
      rw [collectBatchesGo]
      split
      · simp only [List.flatten_nil, List.length_nil]
        omega
      · rename_i hbreak
        have hlt : scanned < n := by
          by_contra hc
          exact hbreak ⟨hn, by omega⟩
        split
        · rename_i hslice
          have htk : (b.take (n - scanned).toNat).length = (n - scanned).toNat := by
            rw [List.length_take]
            omega
          have hrec := ih (scanned + ((b.take (n - scanned).toNat).length : Int))
            (by rw [htk]; omega)
          simp only [List.flatten_cons, List.length_append] at *
          push_cast at *
          omega
        · rename_i hnoslice
          have hble : (b.length : Int) ≤ n - scanned := by
            by_contra hc
            exact hnoslice ⟨hn, by omega⟩
          have hrec := ih (scanned + (b.length : Int)) (by omega)
          simp only [List.flatten_cons, List.length_append] at *
          push_cast at *
          omega

/-- Without an active limit the loop keeps every batch unchanged. -/
theorem collectBatchesGo_none {ρ : Type} :
    ∀ (batches : List (List ρ)) (scanned : Int),
      collectBatchesGo none scanned batches = batches := by
  intro batches
  induction batches with
  | nil => intro scanned; rfl
  | cons b bs ih => intro scanned; rw [collectBatchesGo, ih]

/-- `extract_token_from_header` only ever fails with the 401 missing-auth
error. -/
theorem extractTokenFromHeader_error_eq {a : Option String}
    {e : Nat × GuardKind} (h : extractTokenFromHeader a = .error e) :
    e = (401, GuardKind.missingAuth) := by
  cases a with
  | none =>
      unfold extractTokenFromHeader at h
      simp only [Except.error.injEq] at h
      exact h.symm
  | some s =>
      unfold extractTokenFromHeader at h
      have h' : (if s = "" ∨ ¬ pyStartsWith s "Bearer " = true then
          (Except.error (401, GuardKind.missingAuth) :
            Except (Nat × GuardKind) String)
          else .ok (pyReplace s "Bearer " "")) = .error e := h
      by_cases hc : s = "" ∨ ¬ pyStartsWith s "Bearer " = true
      · rw [if_pos hc] at h'
        simp only [Except.error.injEq] at h'
        exact h'.symm
      · rw [if_neg hc] at h'
        exact absurd h' (by simp)

/-- Status codes of `get_share_from_token` failures: 403 exactly for the
not-approved and wrong-seller raises, 401 for everything else. -/
theorem getShareFromToken_error_status {vh : String → String → Bool}
    {pin : Option Int} {now : Int} {token : String} {shares : List ShareRec}
    {code : Nat} {k : GuardKind}
    (h : getShareFromToken vh pin now token shares = .error (code, k)) :
    (code = 403 ↔ (k = GuardKind.notApproved ∨ k = GuardKind.wrongSeller)) ∧
      (code = 401 ∨ code = 403) := by
  unfold getShareFromToken at h
  split at h
  · simp only [Except.error.injEq, Prod.mk.injEq] at h
    obtain ⟨hc, hk⟩ := h
    subst hc; subst hk
    simp
  · split at h
    · simp only [Except.error.injEq, Prod.mk.injEq] at h
      obtain ⟨hc, hk⟩ := h
      subst hc; subst hk
      simp
    · split at h
      · simp only [Except.error.injEq, Prod.mk.injEq] at h
        obtain ⟨hc, hk⟩ := h
        subst hc; subst hk
        simp
      · split at h
        · simp only [Except.error.injEq, Prod.mk.injEq] at h
          obtain ⟨hc, hk⟩ := h
          subst hc; subst hk
          simp
        · split at h
          · simp only [Except.error.injEq, Prod.mk.injEq] at h
            obtain ⟨hc, hk⟩ := h
            subst hc; subst hk
            simp
          · split at h
            · simp only [Except.error.injEq, Prod.mk.injEq] at h
              obtain ⟨hc, hk⟩ := h
              subst hc; subst hk
              simp
            · exact absurd h (by simp)

/-- The watermark step leaves an empty frame untouched (`if df.empty:
return df`). -/
theorem applyWatermark_empty (E : Ext) (df : DF) (w : String) (t : Bool)
    (acs : Option (List String)) (he : df.isEmpty = true) :
    applyWatermarkToDataframe E df w t acs = some df := by
  unfold applyWatermarkToDataframe
  rw [he]
  rfl

/-- Shape of a successful watermark run on a non-empty frame whose row
anchors computed. -/
theorem applyWatermark_some (E : Ext) (df : DF) (w : String) (t : Bool)
    (acs : Option (List String)) (anchors : List Nat)
    (hne : df.isEmpty = false)
    (ha : computeRowAnchors E (df.dropCol "_watermark_id") acs = some anchors) :
    applyWatermarkToDataframe E df w t acs = some (
      let seed := watermarkSeed w
      let wbytes := watermarkBytes w
      let tsColNames := (df.cols.filter (isTimestampCol E)).map Col.name
      let df1 :=
        if t then
          df.setCol ⟨"_watermark_id", .dInt,
            anchors.map (fun a => .vInt ((a % 1000000 : Nat) : Int))⟩
        else df
      if tsColNames.isEmpty && !t then df1
      else
        ⟨df1.cols.map (watermarkMutateCol E tsColNames wbytes seed anchors)⟩) := by
  simp [applyWatermarkToDataframe, hne, ha, apply_ite some]

/-- A concrete instance of the external primitives, recording the genuine
digest values of the inputs used by witnesses and counterexamples:
`sha16 s = int(sha256(s).hexdigest()[:16], 16)` for the anchor strings
`id:1` … `id:4`, and `sha8 s = int(sha256(s).hexdigest()[:8], 16)` for
the verifier's `base_hash:anchor` strings, where
`d86eff5ae98571c28b11fe97e98dc50b` is
`HMAC_SHA256("default-watermark-secret-change-in-production",
"1:1").hexdigest()[:32]` (the default secret of
`watermarking.py` line 16 at `buyer_id = 1`, `share_id = 1`). -/
def extConcrete : Ext :=
  { sha16 := fun s =>
      if s = "id:1" then 13268918002199264853
      else if s = "id:2" then 11790787413720293480
      else if s = "id:3" then 434537601122106946
      else if s = "id:4" then 12612237315844395806
      else 0,
    sha8 := fun s =>
      if s = "d86eff5ae98571c28b11fe97e98dc50b:13268918002199264853" then
        3903414278
      else if s = "d86eff5ae98571c28b11fe97e98dc50b:11790787413720293480" then
        4033472731
      else if s = "d86eff5ae98571c28b11fe97e98dc50b:434537601122106946" then
        1001496053
      else if s = "d86eff5ae98571c28b11fe97e98dc50b:12612237315844395806" then
        1890010854
      else 0,
    renderFloat := fun _ => "",
    renderTs := fun _ => "",
    parsesAsDatetime := fun _ => false,
    toDatetime := fun v => v,
    pyInt := fun _ => none,
    pyFloat := fun _ => none }

/-- The per-column mutation never renames a column. -/
theorem watermarkMutateCol_name (E : Ext) (ts : List String)
    (wb : List Nat) (sd : Nat) (an : List Nat) (c : Col) :
    (watermarkMutateCol E ts wb sd an c).name = c.name := by
  unfold watermarkMutateCol
  split
  · split <;> rfl
  · rfl

/-- Columns outside the detected timestamp set pass through untouched. -/
theorem watermarkMutateCol_skip (E : Ext) (ts : List String)
    (wb : List Nat) (sd : Nat) (an : List Nat) (c : Col)
    (h : ts.contains c.name = false) :
    watermarkMutateCol E ts wb sd an c = c := by
  unfold watermarkMutateCol
  exact if_neg (by simpa using h)

/-- `_watermark_id` is never detected as a timestamp column (the
detection loop skips it by name). -/
theorem tsColNames_not_wmid (E : Ext) (cols : List Col) :
    ((cols.filter (isTimestampCol E)).map Col.name).contains
      "_watermark_id" = false := by
  by_contra hc
  rw [Bool.not_eq_false] at hc
  have hm : "_watermark_id" ∈ (cols.filter (isTimestampCol E)).map Col.name := by
    simpa using hc
  obtain ⟨c, hcf, hcn⟩ := List.mem_map.1 hm
  have hts : isTimestampCol E c = true := (List.mem_filter.1 hcf).2
  unfold isTimestampCol at hts
  rw [if_pos hcn] at hts
  exact Bool.false_ne_true hts

/-- Whatever the scan produced, a successful `query_table` emits exactly
the protocol line, the metadata line, and one file action per entry of
the singleton `files_list`. -/
theorem runQueryServe_ok_lines (E : Ext) (scanned : DF) (w : String)
    (t : Bool) (acs : List String) (req : Option (List String))
    (tempKey sch : String) (ver : Int) (out : QueryOutcome)
    (h : runQueryServe E scanned w t acs req tempKey sch ver = .ok out) :
    out.lines = responseLines sch [tempKey] ver := by
  unfold runQueryServe at h
  split at h
  · exact absurd h (by simp)
  · split at h
    · exact absurd h (by simp)
    · split at h
      · exact absurd h (by simp)
      · simp only [Except.ok.injEq] at h
        rw [← h]

/-- Index access into a `zipWith` when both sides are defined. -/
theorem zipWith_getElem_some {α β γ : Type} (f : α → β → γ) :
    ∀ (as : List α) (bs : List β) (i : Nat) (a : α) (b : β),
      as[i]? = some a → bs[i]? = some b →
      (List.zipWith f as bs)[i]? = some (f a b) := by
  intro as
  induction as with
  | nil => intro bs i a b ha _; simp at ha
  | cons x xs ih =>
      intro bs i a b ha hb
      cases bs with
      | nil => simp at hb
      | cons y ys =>
          cases i with
          | zero =>
              simp only [List.getElem?_cons_zero, Option.some.injEq] at ha hb
              simp [List.zipWith, ha, hb]
          | succ n =>
              simp only [List.getElem?_cons_succ] at ha hb
              simpa [List.zipWith] using ih ys n a b ha hb

/-- Under unique column names, `find?` by a member's name returns it. -/
theorem find?_name_of_mem :
    ∀ (l : List Col), (l.map Col.name).Nodup → ∀ c ∈ l,
      l.find? (fun x => x.name = c.name) = some c := by
  intro l
  induction l with
  | nil => intro _ c hc; simp at hc
  | cons a as ih =>
      intro hn c hc
      rcases List.mem_cons.1 hc with rfl | hmem
      · exact List.find?_cons_of_pos _ (by simp)
      · have hanames : a.name ∉ as.map Col.name :=
          (List.nodup_cons.1 (by simpa using hn)).1
        have hcn : c.name ∈ as.map Col.name := List.mem_map_of_mem _ hmem
        have hne : a.name ≠ c.name := fun he => hanames (he ▸ hcn)
        rw [List.find?_cons_of_neg _ (by simpa using hne)]
        exact ih (List.nodup_cons.1 (by simpa using hn)).2 c hmem

/-- `find?` by name through a name-preserving map. -/
theorem find?_name_map (f : Col → Col) (hf : ∀ c, (f c).name = c.name) :
    ∀ (l : List Col) (n : String),
      (l.map f).find? (fun x => x.name = n) =
        (l.find? (fun x => x.name = n)).map f := by
  intro l
  induction l with
  | nil => intro n; rfl
  | cons a as ih =>
      intro n
      by_cases hn : a.name = n
      · rw [List.map_cons, List.find?_cons_of_pos _ (by simp [hf, hn]),
          List.find?_cons_of_pos _ (by simp [hn])]
        rfl
      · rw [List.map_cons, List.find?_cons_of_neg _ (by simp [hf, hn]),
          List.find?_cons_of_neg _ (by simp [hn])]
        exact ih n

/-- A column detected as a timestamp has its name in the detected set. -/
theorem mem_tsColNames_of {E : Ext} {cols : List Col} {c : Col}
    (hc : c ∈ cols) (hts : isTimestampCol E c = true) :
    ((cols.filter (isTimestampCol E)).map Col.name).contains c.name = true := by
  have : c.name ∈ (cols.filter (isTimestampCol E)).map Col.name :=
    List.mem_map_of_mem _ (List.mem_filter.2 ⟨hc, hts⟩)
  simpa using this

/-- Under unique names, a column NOT detected as a timestamp has its name
outside the detected set. -/
theorem not_mem_tsColNames_of {E : Ext} {cols : List Col} {c : Col}
    (hc : c ∈ cols) (hnd : (cols.map Col.name).Nodup)
    (hts : isTimestampCol E c = false) :
    ((cols.filter (isTimestampCol E)).map Col.name).contains c.name = false := by
  by_contra hcon
  rw [Bool.not_eq_false] at hcon
  have hm : c.name ∈ (cols.filter (isTimestampCol E)).map Col.name := by
    simpa using hcon
  obtain ⟨c1, hc1f, hc1n⟩ := List.mem_map.1 hm
  have hc1 : c1 ∈ cols := (List.mem_filter.1 hc1f).1
  have hc1ts : isTimestampCol E c1 = true := (List.mem_filter.1 hc1f).2
  have : c1 = c := List.inj_on_of_nodup_map hnd hc1 hc hc1n
  rw [this] at hc1ts
  exact absurd (hts ▸ hc1ts) (by simp)

/-! ## Claims -/

/-- **C4.**  For every query, the number of rows returned never exceeds
the effective limit when one applies; for a trial share with a positive
row cap the cap is a hard ceiling regardless of the requested limit, and
when both a (truthy) requested limit and the cap are set the effective
limit is `min(requested, trial_row_limit)`. -/
theorem c4_limit_enforcement (isTrial : Bool) (cap req : Option Int)
    {ρ : Type} (batches : List (List ρ)) :
    (∀ n, effectiveLimit isTrial cap req = some n →
      (collectBatches (effectiveLimit isTrial cap req) batches).flatten.length ≤
        n.toNat)
    ∧ (∀ m, isTrial = true → cap = some m → 0 < m →
      (collectBatches (effectiveLimit isTrial cap req) batches).flatten.length ≤
        m.toNat)
    ∧ (∀ m r, isTrial = true → cap = some m → 0 < m → req = some r → r ≠ 0 →
      effectiveLimit isTrial cap req = some (min r m)) := by
  have main : ∀ n, effectiveLimit isTrial cap req = some n →
      (collectBatches (effectiveLimit isTrial cap req) batches).flatten.length ≤
        n.toNat := by
    intro n hn
    have hne := effectiveLimit_ne_zero hn
    rw [hn]
    rcases le_or_lt 0 n with hpos | hneg
    · have := collectBatchesGo_length_le n hne batches 0 (by omega)
      unfold collectBatches
      omega
    · unfold collectBatches
      cases batches with
      | nil => simp [collectBatchesGo]
      | cons b bs =>
          rw [collectBatchesGo, if_pos ⟨hne, by omega⟩]
          simp
  have effmin : ∀ m r, isTrial = true → cap = some m → 0 < m →
      req = some r → r ≠ 0 →
      effectiveLimit isTrial cap req = some (min r m) := by
    intro m r ht hc hm hr hr0
    subst ht hc hr
    unfold effectiveLimit
    rw [if_pos (by simp [pyTruthyInt]; omega),
      if_pos (by simp [pyTruthyInt]; omega)]
    simp
  refine ⟨main, ?_, effmin⟩
  intro m ht hc hm
  subst ht hc
  have heff : ∃ k, effectiveLimit true (some m) req = some k ∧ k ≤ m := by
    unfold effectiveLimit
    rw [if_pos (by simp [pyTruthyInt]; omega)]
    split
    · rename_i h2
      obtain ⟨r, hr, hr0⟩ := pyTruthyInt_eq_true.1 h2
      subst hr
      exact ⟨min r m, rfl, min_le_right r m⟩
    · exact ⟨m, rfl, le_refl m⟩
  obtain ⟨k, hk, hkm⟩ := heff
  have := main k hk
  omega

/-- **C4 witness.**  Trial cap 2, requested limit 5, three two-row
batches: at most 2 rows come back and the effective limit is
`min 5 2 = 2`. -/
theorem c4_limit_enforcement_witness :
    (collectBatches (effectiveLimit true (some 2) (some 5))
        [[0, 1], [2, 3], [4, 5]]).flatten.length ≤ (2 : Int).toNat
    ∧ effectiveLimit true (some 2) (some 5) = some (min 5 2) := by
  refine ⟨(c4_limit_enforcement true (some 2) (some 5)
      [[0, 1], [2, 3], [4, 5]]).2.1 2 rfl rfl (by decide),
    (c4_limit_enforcement true (some 2) (some 5)
      [[0, 1], [2, 3], [4, 5]]).2.2 2 5 rfl rfl (by decide) rfl (by decide)⟩

/-- **C10.**  A requested limit of 0 is falsy and treated as absent: the
effective limit equals the no-limit one, a non-trial share gets no limit
at all (the loop then returns every scanned row), and a trial share
falls back to its row cap alone. -/
theorem c10_zero_limit_treated_absent (isTrial : Bool) (cap : Option Int)
    {ρ : Type} (batches : List (List ρ)) :
    (effectiveLimit isTrial cap (some 0) = effectiveLimit isTrial cap none)
    ∧ (effectiveLimit false cap (some 0) = none)
    ∧ (collectBatches none batches = batches)
    ∧ (∀ m, cap = some m → m ≠ 0 →
        effectiveLimit true cap (some 0) = some m) := by
  refine ⟨?_, ?_, collectBatchesGo_none batches 0, ?_⟩
  · unfold effectiveLimit
    simp [pyTruthyInt]
  · unfold effectiveLimit
    simp [pyTruthyInt]
  · intro m hc hm
    subst hc
    unfold effectiveLimit
    rw [if_pos (by simp [pyTruthyInt]; omega)]
    simp [pyTruthyInt]

/-- **C10 witness.**  Trial cap 10 with `limit: 0` behaves as no
requested limit; a non-trial `limit: 0` leaves all four rows. -/
theorem c10_zero_limit_treated_absent_witness :
    (effectiveLimit true (some 10) (some 0) =
      effectiveLimit true (some 10) none)
    ∧ effectiveLimit false (some 10) (some 0) = none
    ∧ collectBatches none [[0, 1], [2, 3]] = [[0, 1], [2, 3]]
    ∧ effectiveLimit true (some 10) (some 0) = some 10 := by
  obtain ⟨h1, h2, h3, h4⟩ :=
    c10_zero_limit_treated_absent true (some 10) [[0, 1], [2, 3]]
  exact ⟨h1, c10_zero_limit_treated_absent false (some 10)
    ([[0, 1], [2, 3]] : List (List Nat)) |>.2.1, h3, h4 10 rfl (by decide)⟩

/-- **C5.**  Every failure of the data-plane guard (missing/invalid
bearer, revoked share — filtered out of the lookup, so surfacing as an
invalid token —, expired share, expired trial) is a 401, except the
not-approved and wrong-seller conditions which are 403s. -/
theorem c5_guard_failure_status (vh : String → String → Bool)
    (pin : Option Int) (now : Int) (auth : Option String)
    (shares : List ShareRec) (code : Nat) (k : GuardKind)
    (h : authenticate vh pin now auth shares = .error (code, k)) :
    (code = 403 ↔ (k = GuardKind.notApproved ∨ k = GuardKind.wrongSeller)) ∧
      (code = 401 ∨ code = 403) := by
  unfold authenticate at h
  split at h
  · rename_i e heq
    have he := extractTokenFromHeader_error_eq heq
    simp only [Except.error.injEq] at h
    rw [he] at h
    obtain ⟨hc, hk⟩ := Prod.mk.injEq .. |>.mp h
    subst hc; subst hk
    simp
  · exact getShareFromToken_error_status h

/-- **C5 witness.**  A pending share reached through a valid bearer fails
with 403 (not-approved); the status split is as claimed. -/
theorem c5_guard_failure_status_witness :
    ((403 : Nat) = 403 ↔
      (GuardKind.notApproved = GuardKind.notApproved ∨
        GuardKind.notApproved = GuardKind.wrongSeller)) ∧
      ((403 : Nat) = 401 ∨ (403 : Nat) = 403) :=
  c5_guard_failure_status (fun _ _ => false) none 0 (some "Bearer t-1")
    [⟨1, 1, 2, some "t-1", some "h1", none, "pending", false, false, none, none⟩]
    403 GuardKind.notApproved (by decide)

/-- **C6 counterexample.**  A share row that carries a `token_hash` is
resolved by the clear-text `token` equality even when the HMAC hash
comparison rejects everything (`verify_token_hash ≡ false`): the lookup
does not resolve such rows by constant-time hash comparison, so the
claim's preference order is false on the code. -/
theorem c6_counterexample :
    lookupShare (fun _ _ => false) "t-1"
      [⟨1, 1, 2, some "t-1", some "h1", none, "approved", false, false,
        none, none⟩] =
      some ⟨1, 1, 2, some "t-1", some "h1", none, "approved", false, false,
        none, none⟩
    ∧ pyTruthyStr (some "h1") = true
    ∧ (fun (_ _ : String) => false) "t-1" "h1" = false := by
  exact ⟨by decide, by decide, rfl⟩

/-- **C6 (amended).**  Data-plane token lookup scans the non-revoked
rows and matches a row when its truthy clear-text `token` equals the
bearer, or — only failing that — when its truthy `token_hash` passes the
constant-time HMAC comparison: the clear-text comparison is tried first
and suffices on its own (all rows created by this marketplace store
both fields), so the hash comparison is the fallback, not the preferred
path. -/
theorem c6_amended_lookup (vh : String → String → Bool) (token : String)
    (shares : List ShareRec) :
    (∀ s, lookupShare vh token shares = some s →
      s.revoked = false ∧
      ((pyTruthyStr s.token = true ∧ s.token = some token) ∨
        (pyTruthyStr s.tokenHash = true ∧
          vh token (s.tokenHash.getD "") = true)))
    ∧ (∀ s, s.revoked = false → pyTruthyStr s.token = true →
        s.token = some token → lookupShare vh token [s] = some s) := by
  constructor
  · intro s h
    unfold lookupShare at h
    have hp := List.find?_some h
    have hm := List.mem_of_find?_eq_some h
    rw [List.mem_filter] at hm
    refine ⟨by simpa using hm.2, ?_⟩
    simp only [Bool.or_eq_true, Bool.and_eq_true] at hp
    rcases hp with ⟨h1, h2⟩ | ⟨h1, h2⟩
    · exact Or.inl ⟨h1, by simpa using h2⟩
    · exact Or.inr ⟨h1, h2⟩
  · intro s hrev htr htok
    unfold lookupShare
    have hfil : ([s].filter (fun r => !r.revoked)) = [s] := by
      simp [List.filter, hrev]
    rw [hfil]
    have htr' : pyTruthyStr (some token) = true := htok ▸ htr
    exact List.find?_cons_of_pos _ (by simp [htr', htok])

/-- **C6 (amended) witness.**  The single approved row with matching
clear-text token is returned, and the lookup-soundness conjunction holds
for it. -/
theorem c6_amended_lookup_witness :
    (lookupShare (fun _ _ => true) "t-9"
      [⟨7, 3, 4, some "t-9", some "h9", none, "approved", false, false,
        none, none⟩] =
      some ⟨7, 3, 4, some "t-9", some "h9", none, "approved", false, false,
        none, none⟩)
    ∧ ((⟨7, 3, 4, some "t-9", some "h9", none, "approved", false, false,
        none, none⟩ : ShareRec).revoked = false ∧
      ((pyTruthyStr (some "t-9") = true ∧
          (some "t-9" : Option String) = some "t-9") ∨
        (pyTruthyStr (some "h9") = true ∧
          (fun (_ _ : String) => true) "t-9" "h9" = true))) := by
  constructor
  · exact (c6_amended_lookup (fun _ _ => true) "t-9" []).2
      ⟨7, 3, 4, some "t-9", some "h9", none, "approved", false, false,
        none, none⟩ rfl (by decide) rfl
  · exact (c6_amended_lookup (fun _ _ => true) "t-9"
      [⟨7, 3, 4, some "t-9", some "h9", none, "approved", false, false,
        none, none⟩]).1
      ⟨7, 3, 4, some "t-9", some "h9", none, "approved", false, false,
        none, none⟩ (by decide)

/-- **C7 counterexample.**  A scan producing zero rows still materialises
the fresh parquet key and emits exactly ONE `file` action, not zero: the
claim's "zero file actions" is false on the code (`files_list` is always
the one-element list, `server.py` line 376). -/
theorem c7_counterexample :
    runQueryServe extConcrete ⟨[⟨"id", .dInt, []⟩, ⟨"ts", .dDatetime, []⟩]⟩
      "d86eff5ae98571c2" false ["id"] none "k1" "sch" 3 =
      .ok ⟨⟨[⟨"id", .dInt, []⟩, ⟨"ts", .dDatetime, []⟩]⟩,
        [.protocolLine, .metaDataLine "sch", .fileLine "k1" 3], 0⟩
    ∧ (([NdLine.protocolLine, .metaDataLine "sch", .fileLine "k1" 3]).filter
        (fun l => match l with | .fileLine _ _ => true | _ => false)).length
        = 1 := by
  exact ⟨by decide, by decide⟩

/-- **C7 (amended).**  For every query whose scan produces zero rows the
watermark step leaves the frame untouched (no watermarking is
attempted), and the NDJSON response is the protocol line, the metadata
line, and exactly one file action — the freshly materialised (empty)
parquet object — rather than zero file actions. -/
theorem c7_empty_scan_response (E : Ext) (scanned : DF) (w : String)
    (t : Bool) (acs : List String) (req : Option (List String))
    (tempKey sch : String) (ver : Int) (h0 : scanned.nRows = 0) :
    applyWatermarkToDataframe E scanned w t (some acs) = some scanned
    ∧ ∀ out, runQueryServe E scanned w t acs req tempKey sch ver = .ok out →
        out.lines =
          [.protocolLine, .metaDataLine sch, .fileLine tempKey ver] := by
  constructor
  · exact applyWatermark_empty E scanned w t (some acs)
      (by simp [DF.isEmpty, h0])
  · intro out hout
    rw [runQueryServe_ok_lines E scanned w t acs req tempKey sch ver out hout]
    rfl

/-- **C7 (amended) witness.**  The empty two-column frame goes through
unchanged and yields the three-line response with its single file
action. -/
theorem c7_empty_scan_response_witness :
    applyWatermarkToDataframe extConcrete
      ⟨[⟨"id", .dInt, []⟩, ⟨"ts", .dDatetime, []⟩]⟩ "d86eff5ae98571c2" false
      (some ["id"]) = some ⟨[⟨"id", .dInt, []⟩, ⟨"ts", .dDatetime, []⟩]⟩ :=
  (c7_empty_scan_response extConcrete
    ⟨[⟨"id", .dInt, []⟩, ⟨"ts", .dDatetime, []⟩]⟩ "d86eff5ae98571c2" false
    ["id"] none "k1" "sch" 3 rfl).1

/-- **C3 counterexample.**  A trial query that requests specific columns
(`columns: ["amount"]`) is served WITHOUT the `_watermark_id` column:
the projection block strips every column outside the requested set, so
the delivered result of this trial query carries no `_watermark_id`,
refuting "for every query served under a trial share". -/
theorem c3_counterexample :
    runQueryServe extConcrete
      ⟨[⟨"id", .dInt, [.vInt 1]⟩, ⟨"amount", .dInt, [.vInt 5]⟩]⟩
      "d86eff5ae98571c2" true ["id"] (some ["amount"]) "k1" "sch" 1 =
      .ok ⟨⟨[⟨"amount", .dInt, [.vInt 5]⟩]⟩,
        [.protocolLine, .metaDataLine "sch", .fileLine "k1" 1], 1⟩
    ∧ (DF.names ⟨[⟨"amount", .dInt, [.vInt 5]⟩]⟩).contains "_watermark_id"
        = false := by
  exact ⟨by decide, by decide⟩

/-- **C3 (amended).**  For every trial query over a non-empty scan whose
frame does not already carry `_watermark_id` and whose anchors compute,
when the buyer requests no explicit column set the delivered frame
contains the integer column `_watermark_id` whose value in row `i` is
`anchor_i mod 1_000_000` (with a column projection the column is
stripped unless requested — see the counterexample). -/
theorem c3_trial_watermark_id_column (E : Ext) (scanned : DF) (w : String)
    (acs : List String) (tempKey sch : String) (ver : Int)
    (anchors : List Nat) (hne : scanned.isEmpty = false)
    (hwm : scanned.names.contains "_watermark_id" = false)
    (ha : computeRowAnchors E (scanned.dropCol "_watermark_id") (some acs) =
      some anchors) :
    ∀ out, runQueryServe E scanned w true acs none tempKey sch ver = .ok out →
      out.servedDf.getCol "_watermark_id" =
        some ⟨"_watermark_id", .dInt,
          anchors.map (fun a => .vInt ((a % 1000000 : Nat) : Int))⟩ := by
  intro out hout
  unfold runQueryServe at hout
  split at hout
  · exact absurd hout (by simp)
  · split at hout
    · exact absurd hout (by simp)
    · rename_i wdf hwdf
      rw [applyWatermark_some E scanned w true (some acs) anchors hne ha] at hwdf
      simp only [Option.some.injEq, Bool.not_true, Bool.and_false,
        Bool.false_eq_true, if_false, if_true] at hwdf
      split at hout
      · rename_i e heq
        have heq' : (Except.ok wdf : Except (Nat × String) DF) = .error e := heq
        exact absurd heq' (by simp)
      · rename_i served hserved
        have hserved' : (Except.ok wdf : Except (Nat × String) DF) =
          .ok served := hserved
        simp only [Except.ok.injEq] at hserved'
        simp only [Except.ok.injEq] at hout
        rw [← hout]
        simp only
        rw [← hserved']
        rw [← hwdf]
        have hcontains :
            (DF.names scanned).contains "_watermark_id" = false := hwm
        rw [DF.setCol, if_neg (by simpa using hcontains)]
        unfold DF.getCol
        rw [List.map_append, List.find?_append]
        have hfirst : (scanned.cols.map
            (watermarkMutateCol E
              ((scanned.cols.filter (isTimestampCol E)).map Col.name)
              (watermarkBytes w) (watermarkSeed w) anchors)).find?
            (fun c => c.name = "_watermark_id") = none := by
          rw [List.find?_eq_none]
          intro x hx
          obtain ⟨c, hc, hcx⟩ := List.mem_map.1 hx
          rw [← hcx]
          simp only [watermarkMutateCol_name, decide_eq_true_eq]
          intro hcn
          have hmem : c.name ∈ DF.names scanned :=
            List.mem_map_of_mem Col.name hc
          rw [hcn] at hmem
          exact absurd hmem (by simpa using hcontains)
        rw [hfirst]
        simp only [Option.none_orElse, List.map_cons, List.map_nil]
        rw [watermarkMutateCol_skip _ _ _ _ _ _
          (tsColNames_not_wmid E scanned.cols)]
        simp [List.find?]

/-- **C3 (amended) witness.**  One-row trial query without projection:
the served frame carries `_watermark_id = 13268918002199264853 mod 10⁶ =
264853` (the genuine SHA-256 anchor of the row `id = 1`). -/
theorem c3_trial_watermark_id_column_witness :
    (QueryOutcome.mk
        ⟨[⟨"id", .dInt, [.vInt 1]⟩, ⟨"amount", .dInt, [.vInt 5]⟩,
          ⟨"_watermark_id", .dInt, [.vInt 264853]⟩]⟩
        [.protocolLine, .metaDataLine "sch", .fileLine "k1" 1]
        1).servedDf.getCol "_watermark_id" =
      some ⟨"_watermark_id", .dInt,
        ([13268918002199264853] : List Nat).map
          (fun a => .vInt ((a % 1000000 : Nat) : Int))⟩ :=
  c3_trial_watermark_id_column extConcrete
    ⟨[⟨"id", .dInt, [.vInt 1]⟩, ⟨"amount", .dInt, [.vInt 5]⟩]⟩
    "d86eff5ae98571c2" ["id"] "k1" "sch" 1 [13268918002199264853]
    (by decide) (by decide) (by decide)
    (QueryOutcome.mk
      ⟨[⟨"id", .dInt, [.vInt 1]⟩, ⟨"amount", .dInt, [.vInt 5]⟩,
        ⟨"_watermark_id", .dInt, [.vInt 264853]⟩]⟩
      [.protocolLine, .metaDataLine "sch", .fileLine "k1" 1] 1)
    (by decide)

/-- Membership in an insertion step. -/
theorem mem_insertSorted {x s : String} :
    ∀ {l : List String}, x ∈ insertSorted s l ↔ x = s ∨ x ∈ l := by
  intro l
  induction l with
  | nil => simp [insertSorted]
  | cons t ts ih =>
      unfold insertSorted
      split
      · simp
      · simp only [List.mem_cons, ih]
        tauto

/-- `sorted` permutes, so membership is unchanged. -/
theorem mem_sortStrings {x : String} :
    ∀ {l : List String}, x ∈ sortStrings l ↔ x ∈ l := by
  intro l
  induction l with
  | nil => simp [sortStrings]
  | cons s ss ih =>
      unfold sortStrings
      rw [mem_insertSorted]
      simp [ih]

/-- Filtered name list of a row of a mapped frame, under a name-preserving
column map. -/
theorem rowAt_filter_names_map (f : Col → Col)
    (hname : ∀ c, (f c).name = c.name) (i : Nat) :
    ∀ (cols : List Col),
      ((DF.rowAt ⟨cols.map f⟩ i).filter
        (fun p => p.1 ≠ "_watermark_id")).map Prod.fst =
      ((DF.rowAt ⟨cols⟩ i).filter
        (fun p => p.1 ≠ "_watermark_id")).map Prod.fst := by
  intro cols
  induction cols with
  | nil => rfl
  | cons c cs ih =>
      simp only [DF.rowAt, List.map_cons, List.filter_cons] at *
      rw [hname]
      split
      · simp only [List.map_cons]
        exact congrArg _ ih
      · exact ih

/-- Lookup of an anchor column in the filtered row of a mapped frame:
columns the map fixes look up identically. -/
theorem rowAt_lookup_map (f : Col → Col)
    (hname : ∀ c, (f c).name = c.name) (i : Nat) (n : String) :
    ∀ (cols : List Col), (∀ c ∈ cols, c.name = n → f c = c) →
      ((DF.rowAt ⟨cols.map f⟩ i).filter
        (fun p => p.1 ≠ "_watermark_id")).lookup n =
      ((DF.rowAt ⟨cols⟩ i).filter
        (fun p => p.1 ≠ "_watermark_id")).lookup n := by
  intro cols
  induction cols with
  | nil => intro _; rfl
  | cons c cs ih =>
      intro hfix
      have hrec := ih (fun c' hc' => hfix c' (List.mem_cons_of_mem c hc'))
      simp only [DF.rowAt, List.map_cons, List.filter_cons] at *
      rw [hname]
      split
      · simp only [List.lookup]
        by_cases hn : n = c.name
        · have hb : (n == c.name) = true := by simpa using hn
          rw [hb, hfix c (List.mem_cons_self c cs) hn.symm]
        · have hb : (n == c.name) = false := by simpa using hn
          rw [hb]
          exact hrec
      · exact hrec

/-- Dtype lookup in a mapped frame: columns the map fixes look up
identically. -/
theorem dtypesList_lookup_map (f : Col → Col)
    (hname : ∀ c, (f c).name = c.name) (n : String) :
    ∀ (cols : List Col), (∀ c ∈ cols, c.name = n → f c = c) →
      (DF.dtypesList ⟨cols.map f⟩).lookup n =
      (DF.dtypesList ⟨cols⟩).lookup n := by
  intro cols
  induction cols with
  | nil => intro _; rfl
  | cons c cs ih =>
      intro hfix
      have hrec := ih (fun c' hc' => hfix c' (List.mem_cons_of_mem c hc'))
      simp only [DF.dtypesList, List.map_cons, List.lookup]
      rw [hname]
      by_cases hn : n = c.name
      · have hb : (n == c.name) = true := by simpa using hn
        rw [hb, hfix c (List.mem_cons_self c cs) hn.symm]
      · have hb : (n == c.name) = false := by simpa using hn
        rw [hb]
        exact hrec

/-- Row-anchor congruence: a name-preserving column map that fixes every
column named by the anchor set leaves `compute_row_anchor` unchanged. -/
theorem computeRowAnchor_rowAt_map (E : Ext) (cols : List Col)
    (f : Col → Col) (acs : List String) (i : Nat)
    (hname : ∀ c, (f c).name = c.name)
    (hpres : ∀ c ∈ cols, c.name ∈ acs → f c = c) :
    computeRowAnchor E (DF.rowAt ⟨cols.map f⟩ i)
      (some (DF.dtypesList ⟨cols.map f⟩)) (some acs) =
    computeRowAnchor E (DF.rowAt ⟨cols⟩ i)
      (some (DF.dtypesList ⟨cols⟩)) (some acs) := by
  simp only [computeRowAnchor, rowAt_filter_names_map f hname i cols]
  set avail := acs.filter (fun c =>
    (((DF.rowAt ⟨cols⟩ i).filter
      (fun p => p.1 ≠ "_watermark_id")).map Prod.fst).contains c) with havail
  by_cases hlen : avail.length = acs.length
  · rw [if_pos hlen]
    simp only
    refine congrArg _ (congrArg _ (congrArg _ (List.map_congr_left ?_)))
    intro n hn
    have hnacs : n ∈ acs := by
      have := mem_sortStrings.1 hn
      rw [havail] at this
      exact (List.mem_filter.1 this).1
    have hfix : ∀ c ∈ cols, c.name = n → f c = c := fun c hc he =>
      hpres c hc (he ▸ hnacs)
    rw [rowAt_lookup_map f hname i n cols hfix,
      dtypesList_lookup_map f hname n cols hfix]
  · rw [if_neg hlen]

/-- Dropping an absent column is the identity. -/
theorem dropCol_of_not_contains (df : DF) (n : String)
    (h : df.names.contains n = false) : df.dropCol n = df := by
  unfold DF.dropCol
  have : ∀ c ∈ df.cols, c.name ≠ n := by
    intro c hc he
    have : c.name ∈ df.names := List.mem_map_of_mem _ hc
    rw [he] at this
    exact absurd this (by simpa using h)
  cases df with
  | mk cols =>
      simp only [DF.mk.injEq]
      exact List.filter_eq_self.2 (fun c hc => by simpa using this c hc)

/-- `allSome` preserves length. -/
theorem allSome_length {α : Type} :
    ∀ (l : List (Option α)) (l' : List α), allSome l = some l' →
      l'.length = l.length := by
  intro l
  induction l with
  | nil =>
      intro l' h
      simp only [allSome, Option.some.injEq] at h
      rw [← h]
      rfl
  | cons o os ih =>
      intro l' h
      cases o with
      | none => exact absurd h (by simp [allSome])
      | some a =>
          simp only [allSome, Option.map_eq_some'] at h
          obtain ⟨r, hr, hl⟩ := h
          rw [← hl]
          simpa using ih r hr

/-- Row count of a frame mapped by a length-preserving column map. -/
theorem nRows_map_of_len (f : Col → Col) :
    ∀ (cols : List Col), (∀ c ∈ cols, (f c).vals.length = c.vals.length) →
      DF.nRows ⟨cols.map f⟩ = DF.nRows ⟨cols⟩ := by
  intro cols hlen
  cases cols with
  | nil => rfl
  | cons c cs => exact hlen c (List.mem_cons_self c cs)

/-- Modelled from the spec's words, for comparison only: the claim's
target-microseconds formula `(B[anchor mod len(B)] * 12_500 + seed mod
10_000) mod 1_000_000` (the spec carries two formulas and C1 asserts
this one for the watermarker). -/
def spec_target_microseconds (wbytes : List Nat) (seed : Nat)
    (anchor : Nat) : Nat :=
  (wbytes.getD (anchor % wbytes.length) 0 * 12500 + seed % 10000) % 1000000

/-- **C1 counterexample.**  With the genuine watermark
`HMAC_SHA256(default_secret, "1:1")[:16] = "d86eff5ae98571c2"` and the
one-row frame `id = 1`, `ts = epoch`, the code delivers microsecond
component `133986 = (B[5]·1000 + seed mod 1000) mod 10⁶`, whereas the
claim's formula demands `665486 = (B[5]·12500 + seed mod 10000) mod
10⁶`: the delivered value differs from
`floor_to_second(ts) + claimed target`. -/
theorem c1_counterexample :
    applyWatermarkToDataframe extConcrete
      ⟨[⟨"id", .dInt, [.vInt 1]⟩, ⟨"ts", .dDatetime, [.vTs 0]⟩]⟩
      "d86eff5ae98571c2" false (some ["id"]) =
      some ⟨[⟨"id", .dInt, [.vInt 1]⟩, ⟨"ts", .dDatetime, [.vTs 133986]⟩]⟩
    ∧ spec_target_microseconds (watermarkBytes "d86eff5ae98571c2")
        (watermarkSeed "d86eff5ae98571c2") 13268918002199264853 = 665486
    ∧ (133986 : Int) ≠ floorToSecondUs 0 + (665486 : Int) := by
  exact ⟨by decide, by decide, by decide⟩

/-- **C1 (amended).**  For every full-access (non-trial) watermark run on
a non-empty frame with unique column names and computed anchors: every
`datetime64` column comes back with each non-null cell replaced by
`floor_to_second(ts) + target_μs` where
`target_μs = (B[anchor mod len(B)] · 1000 + seed mod 1000) mod 1_000_000`
(`B` the eight byte pairs and `seed` the first eight hex chars of
`HMAC_SHA256(secret, buyer_id:share_id)[:16]`), null cells unchanged;
and every column the detection does not classify as a timestamp is left
untouched. -/
theorem c1_fullaccess_timestamp_watermark (E : Ext) (df : DF) (w : String)
    (acs : Option (List String)) (anchors : List Nat)
    (hne : df.isEmpty = false) (hnames : df.names.Nodup)
    (ha : computeRowAnchors E (df.dropCol "_watermark_id") acs = some anchors) :
    ((applyWatermarkToDataframe E df w false acs).isSome = true)
    ∧ (∀ df', applyWatermarkToDataframe E df w false acs = some df' →
        (∀ c ∈ df.cols, c.dtype = .dDatetime → c.name ≠ "_watermark_id" →
          df'.getCol c.name = some ⟨c.name, .dDatetime,
            List.zipWith (watermarkTsVal (watermarkBytes w) (watermarkSeed w))
              anchors c.vals⟩)
        ∧ (∀ c0 ∈ df.cols, isTimestampCol E c0 = false →
            df'.getCol c0.name = some c0))
    ∧ (∀ (vals : List Val) (i : Nat) (us : Int) (a : Nat),
        vals[i]? = some (.vTs us) → anchors[i]? = some a →
        (List.zipWith (watermarkTsVal (watermarkBytes w) (watermarkSeed w))
          anchors vals)[i]? =
          some (.vTs (floorToSecondUs us +
            (((watermarkBytes w).getD (a % (watermarkBytes w).length) 0 *
              1000 + watermarkSeed w % 1000) % 1000000 : Nat)))) := by
  have hsh := applyWatermark_some E df w false acs anchors hne ha
  have hnd : (df.cols.map Col.name).Nodup := hnames
  refine ⟨by rw [hsh]; rfl, ?_, ?_⟩
  · intro df' hdf'
    rw [hsh] at hdf'
    simp only [Option.some.injEq, Bool.not_false, Bool.and_true,
      Bool.false_eq_true, if_false] at hdf'
    constructor
    · intro c hc hdt hcn
      have hts : isTimestampCol E c = true := by
        unfold isTimestampCol
        rw [if_neg hcn, hdt]
      have hmem := mem_tsColNames_of hc hts
      have hemp :
          ((df.cols.filter (isTimestampCol E)).map Col.name).isEmpty = false := by
        cases hl : (df.cols.filter (isTimestampCol E)).map Col.name with
        | nil => rw [hl] at hmem; simp at hmem
        | cons x xs => rfl
      rw [hemp] at hdf'
      simp only [Bool.false_eq_true, if_false] at hdf'
      rw [← hdf']
      unfold DF.getCol
      rw [find?_name_map _ (watermarkMutateCol_name E _ _ _ _),
        find?_name_of_mem df.cols hnd c hc]
      simp only [Option.map_some']
      unfold watermarkMutateCol
      rw [if_pos (by simpa using hmem), if_pos hdt]
      simp [hdt]
    · intro c0 hc0 hts0
      by_cases hemp :
          ((df.cols.filter (isTimestampCol E)).map Col.name).isEmpty = true
      · rw [hemp] at hdf'
        rw [if_pos rfl] at hdf'
        rw [← hdf']
        unfold DF.getCol
        exact find?_name_of_mem df.cols hnd c0 hc0
      · rw [Bool.not_eq_true] at hemp
        rw [hemp] at hdf'
        simp only [Bool.false_eq_true, if_false] at hdf'
        rw [← hdf']
        unfold DF.getCol
        rw [find?_name_map _ (watermarkMutateCol_name E _ _ _ _),
          find?_name_of_mem df.cols hnd c0 hc0]
        simp only [Option.map_some']
        rw [watermarkMutateCol_skip _ _ _ _ _ _
          (not_mem_tsColNames_of hc0 hnd hts0)]
  · intro vals i us a hv ha2
    rw [zipWith_getElem_some _ anchors vals i a (.vTs us) ha2 hv]
    rfl

/-- **C1 (amended) witness.**  The run of the counterexample frame: the
`ts` column is delivered as `floor_to_second(0) + 133986 μs` per the
1000-formula, and the non-timestamp `id` column is untouched. -/
theorem c1_fullaccess_timestamp_watermark_witness :
    ((applyWatermarkToDataframe extConcrete
      ⟨[⟨"id", .dInt, [.vInt 1]⟩, ⟨"ts", .dDatetime, [.vTs 0]⟩]⟩
      "d86eff5ae98571c2" false (some ["id"])).isSome = true)
    ∧ (DF.getCol ⟨[⟨"id", .dInt, [.vInt 1]⟩,
        ⟨"ts", .dDatetime, [.vTs 133986]⟩]⟩ "ts" =
        some ⟨"ts", .dDatetime,
          List.zipWith (watermarkTsVal (watermarkBytes "d86eff5ae98571c2")
            (watermarkSeed "d86eff5ae98571c2"))
            [13268918002199264853] [.vTs 0]⟩)
    ∧ ((List.zipWith (watermarkTsVal (watermarkBytes "d86eff5ae98571c2")
        (watermarkSeed "d86eff5ae98571c2"))
        [13268918002199264853] [.vTs 0])[0]? =
        some (.vTs (floorToSecondUs 0 +
          (((watermarkBytes "d86eff5ae98571c2").getD
            (13268918002199264853 % (watermarkBytes "d86eff5ae98571c2").length)
            0 * 1000 + watermarkSeed "d86eff5ae98571c2" % 1000) % 1000000
            : Nat)))) := by
  obtain ⟨h1, h2, h3⟩ := c1_fullaccess_timestamp_watermark extConcrete
    ⟨[⟨"id", .dInt, [.vInt 1]⟩, ⟨"ts", .dDatetime, [.vTs 0]⟩]⟩
    "d86eff5ae98571c2" (some ["id"]) [13268918002199264853]
    (by decide) (by decide) (by decide)
  refine ⟨h1, ?_, h3 [.vTs 0] 0 0 13268918002199264853 rfl rfl⟩
  exact (h2 ⟨[⟨"id", .dInt, [.vInt 1]⟩, ⟨"ts", .dDatetime, [.vTs 133986]⟩]⟩
    (by decide)).1 ⟨"ts", .dDatetime, [.vTs 0]⟩ (by decide) rfl (by decide)

/-- The mutation preserves column length when anchors are long enough. -/
theorem watermarkMutateCol_len (E : Ext) (ts : List String)
    (wb : List Nat) (sd : Nat) (anchors : List Nat) (c : Col)
    (hc : c.vals.length ≤ anchors.length) :
    (watermarkMutateCol E ts wb sd anchors c).vals.length =
      c.vals.length := by
  unfold watermarkMutateCol
  split
  · split
    · simp only [List.length_zipWith]
      omega
    · simp only [stringToDatetimeCol, List.length_zipWith, List.length_map]
      omega
  · rfl

/-- **C9.**  When the configured anchor columns exclude every detected
timestamp column, the watermark step leaves each anchor column (values
and dtype) unchanged, and the row anchors recomputed on the watermarked
output equal those of the input frame. -/
theorem c9_anchor_columns_stable (E : Ext) (df : DF) (w : String) (t : Bool)
    (acs : List String) (anchors : List Nat)
    (hwf : df.WF) (hwm : df.names.contains "_watermark_id" = false)
    (hexc : ∀ c ∈ df.cols, c.name ∈ acs → isTimestampCol E c = false)
    (ha : computeRowAnchors E (df.dropCol "_watermark_id") (some acs) =
      some anchors) :
    ∀ df', applyWatermarkToDataframe E df w t (some acs) = some df' →
      (∀ c ∈ df.cols, c.name ∈ acs → df'.getCol c.name = some c)
      ∧ computeRowAnchors E (df'.dropCol "_watermark_id") (some acs) =
          some anchors := by
  intro df' hdf'
  have hnd : (df.cols.map Col.name).Nodup := hwf.2
  have hdropdf : df.dropCol "_watermark_id" = df :=
    dropCol_of_not_contains df _ hwm
  have ha0 := ha
  rw [hdropdf] at ha
  have hdfnames : ∀ c ∈ df.cols, c.name ≠ "_watermark_id" := by
    intro c hc he
    have hmem : c.name ∈ df.names := List.mem_map_of_mem _ hc
    rw [he] at hmem
    exact absurd hmem (by simpa using hwm)
  by_cases hemp : df.isEmpty = true
  · rw [applyWatermark_empty E df w t (some acs) hemp] at hdf'
    simp only [Option.some.injEq] at hdf'
    subst hdf'
    refine ⟨?_, by rw [hdropdf]; exact ha⟩
    intro c hc _
    exact find?_name_of_mem df.cols hnd c hc
  · rw [Bool.not_eq_true] at hemp
    rw [applyWatermark_some E df w t (some acs) anchors hemp ha0] at hdf'
    simp only [Option.some.injEq] at hdf'
    set tsNames := (df.cols.filter (isTimestampCol E)).map Col.name
      with htsN
    set f := watermarkMutateCol E tsNames (watermarkBytes w)
      (watermarkSeed w) anchors with hfdef
    have hname : ∀ c, (f c).name = c.name := fun c => by
      rw [hfdef]; exact watermarkMutateCol_name E _ _ _ _ c
    have hpres : ∀ c ∈ df.cols, c.name ∈ acs → f c = c := by
      intro c hc hmem
      rw [hfdef, htsN]
      exact watermarkMutateCol_skip _ _ _ _ _ _
        (not_mem_tsColNames_of hc hnd (hexc c hc hmem))
    have hAlen : anchors.length = df.nRows := by
      have h1 := allSome_length _ _ ha
      simpa using h1
    have hlen : ∀ c ∈ df.cols, (f c).vals.length = c.vals.length := by
      intro c hc
      rw [hfdef]
      exact watermarkMutateCol_len E _ _ _ _ c
        (by rw [hwf.1 c hc, hAlen])
    have hcore : computeRowAnchors E ⟨df.cols.map f⟩ (some acs) =
        some anchors := by
      have hrows := nRows_map_of_len f df.cols hlen
      unfold computeRowAnchors
      rw [hrows]
      rw [List.map_congr_left (fun i _ =>
        computeRowAnchor_rowAt_map E df.cols f acs i hname hpres)]
      exact ha
    have hfilmap : ∀ (l : List Col), (∀ c ∈ l, c.name ≠ "_watermark_id") →
        (l.map f).filter (fun c => c.name ≠ "_watermark_id") = l.map f := by
      intro l hl
      refine List.filter_eq_self.2 ?_
      intro x hx
      obtain ⟨c, hc, rfl⟩ := List.mem_map.1 hx
      rw [hname]
      simpa using hl c hc
    have hgetmap : ∀ c ∈ df.cols, c.name ∈ acs →
        (df.cols.map f).find? (fun x => x.name = c.name) = some c := by
      intro c hc hm
      rw [find?_name_map f hname df.cols,
        find?_name_of_mem df.cols hnd c hc, Option.map_some', hpres c hc hm]
    cases t with
    | false =>
        simp only [Bool.not_false, Bool.and_true, Bool.false_eq_true,
          if_false] at hdf'
        by_cases hemp2 : tsNames.isEmpty = true
        · rw [if_pos hemp2] at hdf'
          subst hdf'
          refine ⟨?_, by rw [hdropdf]; exact ha⟩
          intro c hc _
          exact find?_name_of_mem df.cols hnd c hc
        · rw [Bool.not_eq_true] at hemp2
          rw [hemp2] at hdf'
          simp only [Bool.false_eq_true, if_false] at hdf'
          subst hdf'
          refine ⟨fun c hc hm => hgetmap c hc hm, ?_⟩
          show computeRowAnchors E (DF.dropCol ⟨df.cols.map f⟩ _) _ = _
          unfold DF.dropCol
          rw [hfilmap df.cols hdfnames]
          exact hcore
    | true =>
        simp only [Bool.not_true, Bool.and_false, Bool.false_eq_true,
          if_false, if_true] at hdf'
        rw [DF.setCol] at hdf'
        rw [if_neg (by simpa using hwm)] at hdf'
        subst hdf'
        constructor
        · intro c hc hm
          show ((df.cols ++ [_]).map f).find? (fun x => x.name = c.name) =
            some c
          rw [List.map_append, List.find?_append, hgetmap c hc hm]
          rfl
        · show computeRowAnchors E (DF.dropCol ⟨(df.cols ++ [_]).map f⟩ _) _
            = _
          unfold DF.dropCol
          rw [List.map_append, List.filter_append, hfilmap df.cols hdfnames]
          have hwmco : (List.filter (fun c => c.name ≠ "_watermark_id")
              (List.map f [⟨"_watermark_id", .dInt,
                anchors.map (fun a => Val.vInt ((a % 1000000 : Nat) : Int))⟩]))
              = [] := by
            simp only [List.map_cons, List.map_nil, List.filter]
            rw [hname]
            simp
          rw [hwmco, List.append_nil]
          exact hcore

/-- **C9 witness.**  On the one-row frame (`id`, `ts`) with anchor column
`id`, the watermark rewrites `ts` but the `id` column and the recomputed
anchors are unchanged. -/
theorem c9_anchor_columns_stable_witness :
    (DF.getCol ⟨[⟨"id", .dInt, [.vInt 1]⟩, ⟨"ts", .dDatetime, [.vTs 133986]⟩]⟩
      "id" = some ⟨"id", .dInt, [.vInt 1]⟩)
    ∧ computeRowAnchors extConcrete
        (DF.dropCol ⟨[⟨"id", .dInt, [.vInt 1]⟩,
          ⟨"ts", .dDatetime, [.vTs 133986]⟩]⟩ "_watermark_id")
        (some ["id"]) = some [13268918002199264853] := by
  obtain ⟨h1, h2⟩ := c9_anchor_columns_stable extConcrete
    ⟨[⟨"id", .dInt, [.vInt 1]⟩, ⟨"ts", .dDatetime, [.vTs 0]⟩]⟩
    "d86eff5ae98571c2" false ["id"] [13268918002199264853]
    ⟨by decide, by decide⟩ (by decide)
    (by decide) (by decide)
    ⟨[⟨"id", .dInt, [.vInt 1]⟩, ⟨"ts", .dDatetime, [.vTs 133986]⟩]⟩
    (by decide)
  exact ⟨h1 ⟨"id", .dInt, [.vInt 1]⟩ (by decide) (by decide), h2⟩

/-- `ratMean2` is the textbook mean. -/
theorem ratMean2_eq (a b : ℚ) : ratMean2 a b = (a + b) / 2 := by
  have had : ((a.den : Int) : ℚ) ≠ 0 := by
    exact_mod_cast a.den_nz
  have hbd : ((b.den : Int) : ℚ) ≠ 0 := by
    exact_mod_cast b.den_nz
  unfold ratMean2
  rw [Rat.mkRat_eq_div]
  push_cast
  rw [div_eq_div_iff (by positivity) (by norm_num : (2 : ℚ) ≠ 0)]
  have hA : (a.num : ℚ) = a * (a.den : ℚ) := by
    field_simp [Rat.num_div_den]
  have hB : (b.num : ℚ) = b * (b.den : ℚ) := by
    field_simp [Rat.num_div_den]
  rw [hA, hB]
  ring

/-- `mkRat 1 2` is one half. -/
theorem mkRat_one_two : (mkRat 1 2 : ℚ) = 1 / 2 := by
  rw [Rat.mkRat_eq_div]
  norm_num

/-- **C2 counterexample.**  Four rows carrying `_watermark_id` of which
exactly one matches (rate 1/4, genuine SHA-256 expectations) and no
timestamp column: the `_watermark_id` channel is NOT found (1/4 < 1/2)
and there is no timestamp channel, so the claimed disjunction is false —
yet the verifier reports `found = true` because the overall (average)
rate 1/4 clears the 0.15 tolerance.  `found` is not the disjunction of
the per-channel decisions. -/
theorem c2_counterexample :
    (verifyFingerprint extConcrete
      ⟨[⟨"id", .dInt, [.vInt 1, .vInt 2, .vInt 3, .vInt 4]⟩,
        ⟨"_watermark_id", .dInt,
          [.vInt 3903414278, .vInt 0, .vInt 0, .vInt 0]⟩]⟩
      ⟨"d86eff5ae98571c28b11fe97e98dc50b"⟩ ["id"] (mkRat 3 20)).found = true
    ∧ ((verifyFingerprint extConcrete
      ⟨[⟨"id", .dInt, [.vInt 1, .vInt 2, .vInt 3, .vInt 4]⟩,
        ⟨"_watermark_id", .dInt,
          [.vInt 3903414278, .vInt 0, .vInt 0, .vInt 0]⟩]⟩
      ⟨"d86eff5ae98571c28b11fe97e98dc50b"⟩ ["id"]
      (mkRat 3 20)).wmChannel.map ChannelResult.found) = some false
    ∧ (verifyFingerprint extConcrete
      ⟨[⟨"id", .dInt, [.vInt 1, .vInt 2, .vInt 3, .vInt 4]⟩,
        ⟨"_watermark_id", .dInt,
          [.vInt 3903414278, .vInt 0, .vInt 0, .vInt 0]⟩]⟩
      ⟨"d86eff5ae98571c28b11fe97e98dc50b"⟩ ["id"]
      (mkRat 3 20)).tsChannel = none := by
  exact ⟨by decide, by decide, by decide⟩

/-- **C2 (amended).**  For every verification run that scores at least
one channel (non-empty frame, an available anchor column): the
`_watermark_id` channel is found iff its match rate is ≥ 1/2, the
timestamp channel is found iff its match rate is ≥ the tolerance
(0.15 by default); each scored channel checks every row and its rate is
`matches / checked`; the overall rate is the MEAN of the scored
channels' rates and the overall `found` holds iff that mean is ≥ the
tolerance — it is not the disjunction of the per-channel decisions. -/
theorem c2_verifier_decision (E : Ext) (df : DF) (fp : Fingerprint)
    (acs : List String) (tol : ℚ) (hne : df.isEmpty = false)
    (hav : (acs.filter (fun c => df.names.contains c)).isEmpty = false) :
    (∀ ch, (verifyFingerprint E df fp acs tol).wmChannel = some ch →
      (ch.found = true ↔ ch.matchRate ≥ 1 / 2) ∧ ch.checked = df.nRows ∧
        ch.matchRate = (ch.matchCount : ℚ) / (ch.checked : ℚ))
    ∧ (∀ ch, (verifyFingerprint E df fp acs tol).tsChannel = some ch →
      (ch.found = true ↔ ch.matchRate ≥ tol) ∧ ch.checked = df.nRows ∧
        ch.matchRate = (ch.matchCount : ℚ) / (ch.checked : ℚ))
    ∧ ((verifyFingerprint E df fp acs tol).found = true ↔
        (verifyFingerprint E df fp acs tol).overallMatchRate ≥ tol)
    ∧ (∀ ch1 ch2, (verifyFingerprint E df fp acs tol).tsChannel = some ch1 →
        (verifyFingerprint E df fp acs tol).wmChannel = some ch2 →
        (verifyFingerprint E df fp acs tol).overallMatchRate =
          (ch1.matchRate + ch2.matchRate) / 2)
    ∧ (∀ ch, (verifyFingerprint E df fp acs tol).tsChannel = some ch →
        (verifyFingerprint E df fp acs tol).wmChannel = none →
        (verifyFingerprint E df fp acs tol).overallMatchRate = ch.matchRate)
    ∧ (∀ ch, (verifyFingerprint E df fp acs tol).tsChannel = none →
        (verifyFingerprint E df fp acs tol).wmChannel = some ch →
        (verifyFingerprint E df fp acs tol).overallMatchRate =
          ch.matchRate) := by
  have hrows : 0 < df.nRows := by
    unfold DF.isEmpty at hne
    simp only [Bool.or_eq_false_iff] at hne
    have h2 : df.nRows ≠ 0 := by simpa using hne.2
    omega
  have hres : verifyFingerprint E df fp acs tol =
      ⟨decide (overallOf
          (tsChannelResult E df fp
            (acs.filter (fun c => df.names.contains c)) tol)
          (wmChannelResult E df fp
            (acs.filter (fun c => df.names.contains c))) ≥ tol),
        tsChannelResult E df fp
          (acs.filter (fun c => df.names.contains c)) tol,
        wmChannelResult E df fp
          (acs.filter (fun c => df.names.contains c)),
        overallOf
          (tsChannelResult E df fp
            (acs.filter (fun c => df.names.contains c)) tol)
          (wmChannelResult E df fp
            (acs.filter (fun c => df.names.contains c)))⟩ := by
    simp only [verifyFingerprint, hne, hav, Bool.false_eq_true, if_false]
  rw [hres]
  set avail := acs.filter (fun c => df.names.contains c) with havail
  refine ⟨?_, ?_, by simp [decide_eq_true_iff], ?_, ?_, ?_⟩
  · intro ch hch
    unfold wmChannelResult at hch
    split at hch
    · simp only [Option.some.injEq] at hch
      rw [if_pos hrows] at hch
      subst hch
      refine ⟨by simp [decide_eq_true_iff, mkRat_one_two], rfl, ?_⟩
      simp only
      rw [Rat.mkRat_eq_div]
      push_cast
      rfl
    · exact absurd hch (by simp)
  · intro ch hch
    simp only [tsChannelResult, if_pos hrows] at hch
    split at hch
    · exact absurd hch (by simp)
    · simp only [Option.some.injEq] at hch
      subst hch
      refine ⟨by simp [decide_eq_true_iff], rfl, ?_⟩
      simp only
      rw [Rat.mkRat_eq_div]
      push_cast
      rfl
  · intro ch1 ch2 h1 h2
    simp only at h1 h2
    unfold overallOf
    rw [h1, h2]
    exact ratMean2_eq ch1.matchRate ch2.matchRate
  · intro ch h1 h2
    simp only at h1 h2
    unfold overallOf
    rw [h1, h2]
  · intro ch h1 h2
    simp only at h1 h2
    unfold overallOf
    rw [h1, h2]

/-- **C2 (amended) witness.**  On the four-row `_watermark_id` frame the
channel decision is the 1/2-threshold on its 1/4 rate, and the overall
decision is the tolerance threshold on the overall rate. -/
theorem c2_verifier_decision_witness :
    ((⟨false, 1, 4, mkRat 1 4⟩ : ChannelResult).found = true ↔
      (⟨false, 1, 4, mkRat 1 4⟩ : ChannelResult).matchRate ≥ 1 / 2)
    ∧ ((verifyFingerprint extConcrete
        ⟨[⟨"id", .dInt, [.vInt 1, .vInt 2, .vInt 3, .vInt 4]⟩,
          ⟨"_watermark_id", .dInt,
            [.vInt 3903414278, .vInt 0, .vInt 0, .vInt 0]⟩]⟩
        ⟨"d86eff5ae98571c28b11fe97e98dc50b"⟩ ["id"] (mkRat 3 20)).found =
          true ↔
        (verifyFingerprint extConcrete
        ⟨[⟨"id", .dInt, [.vInt 1, .vInt 2, .vInt 3, .vInt 4]⟩,
          ⟨"_watermark_id", .dInt,
            [.vInt 3903414278, .vInt 0, .vInt 0, .vInt 0]⟩]⟩
        ⟨"d86eff5ae98571c28b11fe97e98dc50b"⟩ ["id"]
          (mkRat 3 20)).overallMatchRate ≥ mkRat 3 20) := by
  obtain ⟨h1, h2, h3, h4, h5, h6⟩ := c2_verifier_decision extConcrete
    ⟨[⟨"id", .dInt, [.vInt 1, .vInt 2, .vInt 3, .vInt 4]⟩,
      ⟨"_watermark_id", .dInt,
        [.vInt 3903414278, .vInt 0, .vInt 0, .vInt 0]⟩]⟩
    ⟨"d86eff5ae98571c28b11fe97e98dc50b"⟩ ["id"] (mkRat 3 20)
    (by decide) (by decide)
  exact ⟨(h1 ⟨false, 1, 4, mkRat 1 4⟩ (by decide)).1, h3⟩

/-! ## C8: predicate-parser failure analysis -/

/-- Every error `parse_predicate_string` raises carries HTTP status 400. -/
theorem parsePredicateString_error_400 (E : Ext) (s : String)
    (e : Nat × String) (h : parsePredicateString E s = .error e) : e.1 = 400 := by
  simp only [parsePredicateString] at h
  repeat first
    | exact Except.noConfusion h
    | exact Except.error.inj h ▸ rfl
    | split at h

/-- Every error the per-entry JSON parse raises carries HTTP status 400. -/
theorem parseJsonPredicateOne_error_400 (p : JsonPredicate)
    (e : Nat × String) (h : parseJsonPredicateOne p = .error e) : e.1 = 400 := by
  simp only [parseJsonPredicateOne] at h
  repeat first
    | exact Except.noConfusion h
    | exact Except.error.inj h ▸ rfl
    | split at h

/-- A JSON entry parses successfully exactly when it is structurally
complete (`jsonNodeOkB`). -/
theorem parseJsonPredicateOne_ok_iff (p : JsonPredicate) :
    (∃ n, parseJsonPredicateOne p = .ok n) ↔ jsonNodeOkB p = true := by
  by_cases hc : pyTruthyStr p.column = true
  · by_cases ho : pyTruthyStr p.op = true
    · by_cases h1 : pyUpper (p.op.getD "") = "IS NULL"
      · simp [parseJsonPredicateOne, jsonNodeOkB, hc, ho, h1]
      · by_cases h2 : pyUpper (p.op.getD "") = "IS NOT NULL"
        · simp [parseJsonPredicateOne, jsonNodeOkB, hc, ho, h1, h2]
        · by_cases h3 : pyUpper (p.op.getD "") = "IN"
          · by_cases hv : pyTruthyVals p.values = true
            · by_cases hlen : (p.values.getD []).length ≤ 1000
              · simp [parseJsonPredicateOne, jsonNodeOkB, hc, ho, h1, h2, h3,
                  hv, hlen, Nat.not_lt.mpr hlen]
              · have hgt : (p.values.getD []).length > 1000 := by omega
                simp [parseJsonPredicateOne, jsonNodeOkB, hc, ho, h1, h2, h3,
                  hv, hgt, hlen]
            · simp [parseJsonPredicateOne, jsonNodeOkB, hc, ho, h1, h2, h3, hv]
          · cases hval : p.value with
            | none =>
                simp [parseJsonPredicateOne, jsonNodeOkB, hc, ho, h1, h2, h3,
                  hval]
            | some v =>
                simp [parseJsonPredicateOne, jsonNodeOkB, hc, ho, h1, h2, h3,
                  hval]
    · simp [parseJsonPredicateOne, jsonNodeOkB, hc, ho]
  · simp [parseJsonPredicateOne, jsonNodeOkB, hc]

/-- Errors of the DSL-hint parse loop carry HTTP status 400. -/
theorem parseHintsGo_error_400 (E : Ext) (l : List String) :
    ∀ e, parseHintsGo E l = .error e → e.1 = 400 := by
  induction l with
  | nil =>
      intro e h
      exact absurd h (by simp [parseHintsGo])
  | cons s rest ih =>
      intro e h
      simp only [parseHintsGo] at h
      split at h
      · rename_i e' he'
        simp only [Except.error.injEq] at h
        exact h ▸ parsePredicateString_error_400 E s e' he'
      · rename_i n hn
        split at h
        · rename_i e' he'
          simp only [Except.error.injEq] at h
          exact h ▸ ih e' he'
        · exact absurd h (by simp)

/-- The DSL-hint parse loop succeeds exactly when every hint parses. -/
theorem parseHintsGo_ok_iff (E : Ext) (l : List String) :
    (∃ ns, parseHintsGo E l = .ok ns) ↔
      ∀ s ∈ l, ∃ n, parsePredicateString E s = .ok n := by
  induction l with
  | nil => simp [parseHintsGo]
  | cons s rest ih =>
      simp only [parseHintsGo, List.mem_cons]
      constructor
      · rintro ⟨ns, h⟩
        split at h
        · exact absurd h (by simp)
        · rename_i n hn
          split at h
          · exact absurd h (by simp)
          · rename_i ms hms
            intro t ht
            rcases ht with rfl | ht
            · exact ⟨n, hn⟩
            · exact (ih.1 ⟨ms, hms⟩) t ht
      · intro hall
        obtain ⟨n, hn⟩ := hall s (Or.inl rfl)
        obtain ⟨ns, hns⟩ := ih.2 (fun t ht => hall t (Or.inr ht))
        exact ⟨n :: ns, by simp [hn, hns]⟩

/-- A hint that parses contributes its node to the DSL parse result. -/
theorem parseHintsGo_mem_of (E : Ext) (l : List String) :
    ∀ ns, parseHintsGo E l = .ok ns →
      ∀ s ∈ l, ∀ n, parsePredicateString E s = .ok n → n ∈ ns := by
  induction l with
  | nil =>
      intro ns _ s hs
      exact absurd hs (by simp)
  | cons t rest ih =>
      intro ns h s hs n hn
      simp only [parseHintsGo] at h
      split at h
      · exact absurd h (by simp)
      · rename_i m hm
        split at h
        · exact absurd h (by simp)
        · rename_i ms hms
          simp only [Except.ok.injEq] at h
          subst h
          rcases List.mem_cons.mp hs with rfl | hs'
          · rw [hm] at hn
            simp only [Except.ok.injEq] at hn
            exact hn ▸ List.mem_cons_self _ _
          · exact List.mem_cons_of_mem _ (ih ms hms s hs' n hn)

/-- Every node of a successful DSL parse comes from one of the hints. -/
theorem parseHintsGo_src (E : Ext) (l : List String) :
    ∀ ns, parseHintsGo E l = .ok ns →
      ∀ n ∈ ns, ∃ s ∈ l, parsePredicateString E s = .ok n := by
  induction l with
  | nil =>
      intro ns h n hn
      simp only [parseHintsGo, Except.ok.injEq] at h
      subst h
      exact absurd hn (by simp)
  | cons t rest ih =>
      intro ns h n hn
      simp only [parseHintsGo] at h
      split at h
      · exact absurd h (by simp)
      · rename_i m hm
        split at h
        · exact absurd h (by simp)
        · rename_i ms hms
          simp only [Except.ok.injEq] at h
          subst h
          rcases List.mem_cons.mp hn with rfl | hn'
          · exact ⟨t, List.mem_cons_self _ _, hm⟩
          · obtain ⟨s, hs, hsn⟩ := ih ms hms n hn'
            exact ⟨s, List.mem_cons_of_mem _ hs, hsn⟩

/-- Errors of the JSON-hint parse loop carry HTTP status 400. -/
theorem parseJsonGo_error_400 (l : List JsonPredicate) :
    ∀ e, parseJsonGo l = .error e → e.1 = 400 := by
  induction l with
  | nil =>
      intro e h
      exact absurd h (by simp [parseJsonGo])
  | cons p rest ih =>
      intro e h
      simp only [parseJsonGo] at h
      split at h
      · rename_i e' he'
        simp only [Except.error.injEq] at h
        exact h ▸ parseJsonPredicateOne_error_400 p e' he'
      · rename_i n hn
        split at h
        · rename_i e' he'
          simp only [Except.error.injEq] at h
          exact h ▸ ih e' he'
        · exact absurd h (by simp)

/-- The JSON-hint parse loop succeeds exactly when every entry parses. -/
theorem parseJsonGo_ok_iff (l : List JsonPredicate) :
    (∃ ns, parseJsonGo l = .ok ns) ↔
      ∀ p ∈ l, ∃ n, parseJsonPredicateOne p = .ok n := by
  induction l with
  | nil => simp [parseJsonGo]
  | cons p rest ih =>
      simp only [parseJsonGo, List.mem_cons]
      constructor
      · rintro ⟨ns, h⟩
        split at h
        · exact absurd h (by simp)
        · rename_i n hn
          split at h
          · exact absurd h (by simp)
          · rename_i ms hms
            intro q hq
            rcases hq with rfl | hq
            · exact ⟨n, hn⟩
            · exact (ih.1 ⟨ms, hms⟩) q hq
      · intro hall
        obtain ⟨n, hn⟩ := hall p (Or.inl rfl)
        obtain ⟨ns, hns⟩ := ih.2 (fun q hq => hall q (Or.inr hq))
        exact ⟨n :: ns, by simp [hn, hns]⟩

/-- A JSON entry that parses contributes its node to the parse result. -/
theorem parseJsonGo_mem_of (l : List JsonPredicate) :
    ∀ ns, parseJsonGo l = .ok ns →
      ∀ p ∈ l, ∀ n, parseJsonPredicateOne p = .ok n → n ∈ ns := by
  induction l with
  | nil =>
      intro ns _ p hp
      exact absurd hp (by simp)
  | cons q rest ih =>
      intro ns h p hp n hn
      simp only [parseJsonGo] at h
      split at h
      · exact absurd h (by simp)
      · rename_i m hm
        split at h
        · exact absurd h (by simp)
        · rename_i ms hms
          simp only [Except.ok.injEq] at h
          subst h
          rcases List.mem_cons.mp hp with rfl | hp'
          · rw [hm] at hn
            simp only [Except.ok.injEq] at hn
            exact hn ▸ List.mem_cons_self _ _
          · exact List.mem_cons_of_mem _ (ih ms hms p hp' n hn)

/-- Every node of a successful JSON parse comes from one of the entries. -/
theorem parseJsonGo_src (l : List JsonPredicate) :
    ∀ ns, parseJsonGo l = .ok ns →
      ∀ n ∈ ns, ∃ p ∈ l, parseJsonPredicateOne p = .ok n := by
  induction l with
  | nil =>
      intro ns h n hn
      simp only [parseJsonGo, Except.ok.injEq] at h
      subst h
      exact absurd hn (by simp)
  | cons q rest ih =>
      intro ns h n hn
      simp only [parseJsonGo] at h
      split at h
      · exact absurd h (by simp)
      · rename_i m hm
        split at h
        · exact absurd h (by simp)
        · rename_i ms hms
          simp only [Except.ok.injEq] at h
          subst h
          rcases List.mem_cons.mp hn with rfl | hn'
          · exact ⟨q, List.mem_cons_self _ _, hm⟩
          · obtain ⟨p, hp, hpn⟩ := ih ms hms n hn'
            exact ⟨p, List.mem_cons_of_mem _ hp, hpn⟩

/-- Every error of `validate_predicates` carries HTTP status 400. -/
theorem validatePredicates_error_400 (ns : List PredicateNode)
    (cols : List String) :
    ∀ e, validatePredicates ns cols = .error e → e.1 = 400 := by
  induction ns with
  | nil =>
      intro e h
      exact absurd h (by simp [validatePredicates])
  | cons p ps ih =>
      intro e h
      simp only [validatePredicates] at h
      split at h
      · simp only [Except.error.injEq] at h
        exact h ▸ rfl
      · split at h
        · simp only [Except.error.injEq] at h
          exact h ▸ rfl
        · split at h
          · simp only [Except.error.injEq] at h
            exact h ▸ rfl
          · exact ih e h

/-- `validate_predicates` accepts exactly when every node passes the
per-node check `nodeOkB`. -/
theorem validatePredicates_ok_iff (ns : List PredicateNode)
    (cols : List String) :
    validatePredicates ns cols = .ok () ↔ ∀ n ∈ ns, nodeOkB cols n = true := by
  induction ns with
  | nil => simp [validatePredicates]
  | cons p ps ih =>
      constructor
      · intro h
        simp only [validatePredicates] at h
        split at h
        · exact absurd h (by simp)
        · split at h
          · exact absurd h (by simp)
          · split at h
            · exact absurd h (by simp)
            · rename_i hcol hop hin
              intro n hn
              rcases List.mem_cons.mp hn with rfl | hn'
              · simp only [nodeOkB, Bool.and_eq_true, Bool.or_eq_true]
                refine ⟨⟨by simpa using hcol, by simpa using hop⟩, ?_⟩
                by_cases hIN : n.op = "IN"
                · refine Or.inr ?_
                  have hle : (n.values.getD []).length ≤ 1000 := by
                    by_contra hgt
                    exact hin ⟨hIN, by omega⟩
                  simpa using hle
                · exact Or.inl (by simpa using hIN)
              · exact ih.1 h n hn'
      · intro hall
        have hp := hall p (List.mem_cons_self _ _)
        simp only [nodeOkB, Bool.and_eq_true, Bool.or_eq_true] at hp
        obtain ⟨⟨hcol, hop⟩, hrest⟩ := hp
        have h3 : ¬(p.op = "IN" ∧ (p.values.getD []).length > 1000) := by
          rintro ⟨hIN, hlen⟩
          rcases hrest with hne | hle
          · exact absurd hIN (by simpa using hne)
          · have hb : (p.values.getD []).length ≤ 1000 := by simpa using hle
            omega
        have hcolm : p.column ∈ cols := by simpa using hcol
        have hopm : p.op ∈ supportedOps := by simpa using hop
        simp [validatePredicates, hcolm, hopm, h3]
        exact ih.2 fun n hn => hall n (List.mem_cons_of_mem _ hn)

/-- Every error of the parse phase of `parse_query_predicates` carries
HTTP status 400. -/
theorem parseBodyHints_error_400 (E : Ext) (body : QueryBody)
    (e : Nat × String) (h : parseBodyHints E body = .error e) : e.1 = 400 := by
  simp only [parseBodyHints] at h
  split at h
  · rename_i js _
    simp only [parseJsonPredicateHints] at h
    split at h
    · simp only [Except.error.injEq] at h
      exact h ▸ rfl
    · exact parseJsonGo_error_400 js e h
  · split at h
    · rename_i hi _
      simp only [parsePredicateHints] at h
      split at h
      · simp only [Except.error.injEq] at h
        exact h ▸ rfl
      · exact parseHintsGo_error_400 E (hintsList hi) e h
    · exact absurd h (by simp)

/-- **C8 counterexample.**  The DSL hint `amount >= 12abc` carries a
malformed literal — Python's `int("12abc")` raises `ValueError` — yet
`parse_query_predicates` succeeds: `parse_value` swallows the error and
falls back to the raw string, so a malformed literal is NOT one of the
400 failure modes, contrary to the claim's "exactly when" list. -/
theorem c8_counterexample :
    parseQueryPredicates extConcrete
      ⟨none, some (.hlist ["amount >= 12abc"])⟩ ["amount"]
      = .ok [⟨">=", "amount", some (.pstr "12abc"), none⟩] := by
  decide

/-- **C8 (amended).**  `parse_query_predicates` fails exactly with HTTP
status 400, and it fails precisely when the request is ill-formed in
the sense of `queryWellFormedB`: more than 20 hints, a DSL hint in no
recognised format, a structurally incomplete JSON entry (missing
column or op, `IN` without a non-empty values array of at most 1000
entries, any other operator without a value), or a produced node
naming a column outside the schema, an unsupported operator, or an
oversized `IN` list.  A malformed literal is not a failure mode:
`parse_value` is total and falls back to the raw string. -/
theorem c8_predicate_parser_http400 (E : Ext) (body : QueryBody)
    (cols : List String) :
    (∀ e, parseQueryPredicates E body cols = .error e → e.1 = 400)
    ∧ ((∃ preds, parseQueryPredicates E body cols = .ok preds) ↔
        queryWellFormedB E body cols = true) := by
  constructor
  · intro e h
    simp only [parseQueryPredicates] at h
    split at h
    · rename_i e' he'
      simp only [Except.error.injEq] at h
      exact h ▸ parseBodyHints_error_400 E body e' he'
    · rename_i preds hpreds
      split at h
      · exact Except.noConfusion h
      · split at h
        · rename_i e' he'
          simp only [Except.error.injEq] at h
          exact h ▸ validatePredicates_error_400 preds cols e' he'
        · exact Except.noConfusion h
  · rcases hbj : body.jsonPredicateHints with _ | js
    · rcases hbp : body.predicateHints with _ | hi
      · simp [parseQueryPredicates, parseBodyHints, queryWellFormedB, hbj, hbp]
      · simp only [parseQueryPredicates, parseBodyHints, queryWellFormedB,
          parsePredicateHints, hbj, hbp]
        by_cases hlen : (hintsList hi).length ≤ 20
        · rw [if_neg (by omega)]
          constructor
          · rintro ⟨preds, hp⟩
            split at hp
            · exact Except.noConfusion hp
            · rename_i ns hns
              have hmem := parseHintsGo_mem_of E (hintsList hi) ns hns
              have hnodes : ∀ n ∈ ns, nodeOkB cols n = true := by
                split at hp
                · rename_i he
                  intro n hn
                  cases ns with
                  | nil => exact absurd hn (by simp)
                  | cons a as => exact absurd he (by simp)
                · split at hp
                  · exact Except.noConfusion hp
                  · rename_i u hu
                    cases u
                    exact (validatePredicates_ok_iff ns cols).1 hu
              simp only [Bool.and_eq_true, List.all_eq_true]
              refine ⟨by simpa using hlen, ?_⟩
              intro s hs
              obtain ⟨n, hn⟩ :=
                (parseHintsGo_ok_iff E (hintsList hi)).1 ⟨ns, hns⟩ s hs
              rw [hn]
              exact hnodes n (hmem s hs n hn)
          · intro hrhs
            simp only [Bool.and_eq_true, List.all_eq_true] at hrhs
            obtain ⟨-, hall⟩ := hrhs
            have hparse : ∀ s ∈ hintsList hi,
                ∃ n, parsePredicateString E s = .ok n := by
              intro s hs
              have h2 := hall s hs
              split at h2
              · rename_i n hn
                exact ⟨n, hn⟩
              · exact Bool.noConfusion h2
            obtain ⟨ns, hns⟩ := (parseHintsGo_ok_iff E (hintsList hi)).2 hparse
            simp only [hns]
            by_cases hemp : ns.isEmpty = true
            · rw [if_pos hemp]
              exact ⟨[], rfl⟩
            · rw [if_neg hemp]
              have hok : validatePredicates ns cols = .ok () := by
                rw [validatePredicates_ok_iff]
                intro n hn
                obtain ⟨s, hs, hsn⟩ :=
                  parseHintsGo_src E (hintsList hi) ns hns n hn
                have h2 := hall s hs
                rw [hsn] at h2
                exact h2
              rw [hok]
              exact ⟨ns, rfl⟩
        · rw [if_pos (by omega)]
          constructor
          · rintro ⟨preds, hp⟩
            exact Except.noConfusion hp
          · intro hrhs
            simp only [Bool.and_eq_true] at hrhs
            exact absurd (by simpa using hrhs.1) hlen
    · simp only [parseQueryPredicates, parseBodyHints, queryWellFormedB,
        parseJsonPredicateHints, hbj]
      by_cases hlen : js.length ≤ 20
      · rw [if_neg (by omega)]
        constructor
        · rintro ⟨preds, hp⟩
          split at hp
          · exact Except.noConfusion hp
          · rename_i ns hns
            have hmem := parseJsonGo_mem_of js ns hns
            have hnodes : ∀ n ∈ ns, nodeOkB cols n = true := by
              split at hp
              · rename_i he
                intro n hn
                cases ns with
                | nil => exact absurd hn (by simp)
                | cons a as => exact absurd he (by simp)
              · split at hp
                · exact Except.noConfusion hp
                · rename_i u hu
                  cases u
                  exact (validatePredicates_ok_iff ns cols).1 hu
            simp only [Bool.and_eq_true, List.all_eq_true]
            refine ⟨⟨by simpa using hlen, ?_⟩, ?_⟩
            · intro p hps
              exact (parseJsonPredicateOne_ok_iff p).1
                ((parseJsonGo_ok_iff js).1 ⟨ns, hns⟩ p hps)
            · intro p hps
              obtain ⟨n, hn⟩ := (parseJsonGo_ok_iff js).1 ⟨ns, hns⟩ p hps
              rw [hn]
              exact hnodes n (hmem p hps n hn)
        · intro hrhs
          simp only [Bool.and_eq_true, List.all_eq_true] at hrhs
          obtain ⟨⟨-, hallOk⟩, hall⟩ := hrhs
          have hparse : ∀ p ∈ js, ∃ n, parseJsonPredicateOne p = .ok n :=
            fun p hp => (parseJsonPredicateOne_ok_iff p).2 (hallOk p hp)
          obtain ⟨ns, hns⟩ := (parseJsonGo_ok_iff js).2 hparse
          simp only [hns]
          by_cases hemp : ns.isEmpty = true
          · rw [if_pos hemp]
            exact ⟨[], rfl⟩
          · rw [if_neg hemp]
            have hok : validatePredicates ns cols = .ok () := by
              rw [validatePredicates_ok_iff]
              intro n hn
              obtain ⟨p, hp, hpn⟩ := parseJsonGo_src js ns hns n hn
              have h2 := hall p hp
              rw [hpn] at h2
              exact h2
            rw [hok]
            exact ⟨ns, rfl⟩
      · rw [if_pos (by omega)]
        constructor
        · rintro ⟨preds, hp⟩
          exact Except.noConfusion hp
        · intro hrhs
          simp only [Bool.and_eq_true] at hrhs
          exact absurd (by simpa using hrhs.1.1) hlen

/-- **C8 (amended) witness.**  A well-formed hint parses (so the
equivalence's right-to-left direction fires on `amount IS NOT NULL`),
and an unrecognised format (`country LIKE E`) errors with status 400. -/
theorem c8_predicate_parser_http400_witness :
    ((400, "Unsupported predicate format") : Nat × String).1 = 400
    ∧ (∃ preds, parseQueryPredicates extConcrete
        ⟨none, some (.hlist ["amount IS NOT NULL"])⟩ ["amount"]
          = .ok preds) := by
  constructor
  · exact (c8_predicate_parser_http400 extConcrete
      ⟨none, some (.hlist ["country LIKE E"])⟩ ["country"]).1
      (400, "Unsupported predicate format") (by decide)
  · exact ((c8_predicate_parser_http400 extConcrete
      ⟨none, some (.hlist ["amount IS NOT NULL"])⟩ ["amount"]).2).mpr
      (by decide)

end DeltaS
